import Mathlib

/-!
# cjdnsnode peer relay (`src/peer.js`): a shallow embedding

The JavaScript module keeps one context object `ctx` (peer registry, announcement store,
two counters, the announce callback) and mutates it from event handlers that run to
completion one at a time.  Here every handler is a pure function on an explicit context
value.

* Peer objects live in a heap `Ctx.heap` keyed by the peer id that `mkPeer` assigns; the
  registry `ctx.peers` is a list of such references, so that `indexOf` / `splice` act on
  references exactly as in the source and a handler may run for a peer that has already
  left the registry.
* Effects are recorded in two logs: `Ctx.sent` (frames accepted by `socket.send`, before
  encoding, with the receiving peer) and `Ctx.announced` (calls of `ctx.mut.onAnnounce`).
* `console.log` is diagnostic only and is left out.
* A JavaScript exception is an `Outcome` with `threw = true`; the context inside is the
  state at the moment of the throw.
* What the source leaves to its collaborators is a parameter: the codec's `decode`, the
  runtime's coercion of ill-typed fields (`Env`), the transport's behaviour (`Socket`).
  A socket says whether `send`, `close` and `terminate` would raise; a call that raises
  delivers nothing and leaves `readyState` as it was.
* The clock `now()` is an argument of each handler; the sweep reads it once per peer.
* The announce callback is the host's: its calls are recorded, its own effects are not
  part of this module.
* Timers are events, not state: a tick of the keepalive interval is a call of `pingCycle`,
  and the reconnect timers of `connectTo` only lead to further `connectToOpen` events.
  `Reachable` lists the events.
-/

namespace CjdnsNode

/-! ## Values -/

/-- A Node `Buffer`. -/
abbrev Bytes := List (Fin 256)

/-- The JavaScript values the handlers can meet: what the codec decodes (nil, booleans,
integers, strings, binaries, arrays, maps) and what a property read on the store can give
besides (`undefined`, a function inherited from `Object.prototype`).  Numbers are
integers; floating point is not modelled. -/
inductive Val where
  | undefined : Val
  | null : Val
  | bool (b : Bool) : Val
  | num (n : Int) : Val
  | str (s : String) : Val
  | bin (b : Bytes) : Val
  | arr (items : List Val) : Val
  | obj (fields : List (String × Val)) : Val
  | func (name : String) : Val

instance : Inhabited Val := ⟨Val.undefined⟩

/-- The property read `v[i]`; `none` is the `TypeError` of reading a property of `null` or
`undefined`.  A string yields its `i`-th character, a buffer its `i`-th byte, a map its
field named by the decimal form of `i`. -/
def Val.idx : Val → Nat → Option Val
  | .undefined, _ => none
  | .null, _ => none
  | .str s, i =>
    some (match s.data.get? i with
      | some c => .str (String.singleton c)
      | none => .undefined)
  | .bin b, i =>
    some (match b.get? i with
      | some x => .num (Int.ofNat x.val)
      | none => .undefined)
  | .arr items, i => some (items.getD i .undefined)
  | .obj fields, i => some ((fields.lookup (toString i)).getD .undefined)
  | _, _ => some .undefined

/-- The property read `v[i]` on a value that is neither `null` nor `undefined`. -/
def Val.field (v : Val) (i : Nat) : Val :=
  (v.idx i).getD .undefined

/-- The test `typeof(v) === 'number'`. -/
def Val.isNumber : Val → Bool
  | .num _ => true
  | _ => false

/-- The test `typeof(v) === 'string'`. -/
def Val.isString : Val → Bool
  | .str _ => true
  | _ => false

/-- JavaScript truthiness, as used by `!msg[2]` and `x || null`.  Objects, and so every
buffer including the empty one, are truthy. -/
def Val.truthy : Val → Bool
  | .undefined => false
  | .null => false
  | .bool b => b
  | .num n => n != 0
  | .str s => s != ""
  | _ => true

mutual
/-- Whether `ctx.msgpack.encode` accepts the value: it throws on `undefined` and on a
function, and recurses into arrays and maps. -/
def Val.encodable : Val → Bool
  | .undefined => false
  | .func _ => false
  | .arr items => encodableItems items
  | .obj fields => encodableFields fields
  | _ => true
/-- Every item of an array is encodable. -/
def encodableItems : List Val → Bool
  | [] => true
  | v :: vs => v.encodable && encodableItems vs
/-- Every field of a map is encodable; the encoder skips fields holding `undefined` or a
function. -/
def encodableFields : List (String × Val) → Bool
  | [] => true
  | (_, .undefined) :: fs => encodableFields fs
  | (_, .func _) :: fs => encodableFields fs
  | (_, v) :: fs => v.encodable && encodableFields fs
end

/-! ## Hexadecimal form of hashes -/

/-- The lowercase hexadecimal digit of `d < 16`. -/
def hexDigit (d : Nat) : Char :=
  "0123456789abcdef".data.getD d '0'

/-- The value of a hexadecimal digit of either case. -/
def hexVal (c : Char) : Option Nat :=
  if 48 ≤ c.toNat ∧ c.toNat ≤ 57 then some (c.toNat - 48)
  else if 97 ≤ c.toNat ∧ c.toNat ≤ 102 then some (c.toNat - 87)
  else if 65 ≤ c.toNat ∧ c.toNat ≤ 70 then some (c.toNat - 55)
  else none

/-- The sixteen characters that `toString('hex')` produces. -/
def hexAlphabet : List Char := "0123456789abcdef".data

/-- The characters of `buf.toString('hex')`: two lowercase digits per byte. -/
def hexChars : Bytes → List Char
  | [] => []
  | b :: bs => hexDigit (b.val / 16) :: hexDigit (b.val % 16) :: hexChars bs

/-- The call `buf.toString('hex')`. -/
def toHex (b : Bytes) : String :=
  String.mk (hexChars b)

/-- Decoding of a well-formed hexadecimal string: an even number of hexadecimal digits. -/
def parseHex : List Char → Option Bytes
  | [] => some []
  | [_] => none
  | a :: b :: rest =>
    match hexVal a, hexVal b, parseHex rest with
    | some hi, some lo, some bs => some (Fin.ofNat (hi * 16 + lo) :: bs)
    | _, _, _ => none

/-- What the source takes from its collaborators. -/
structure Env where
  /-- The call `ctx.msgpack.decode(message)`; `none` when it throws. -/
  decode : Bytes → Option Val
  /-- The call `x.toString('hex')` on an array, a map or a function; `none` when it
  throws. -/
  hexOfOther : Val → Option String
  /-- The call `new Buffer(x, 'hex')` on a string that is not well-formed hexadecimal;
  `none` when it throws (Node before 8), otherwise the bytes the runtime makes of it. -/
  bufferOfBadHex : String → Option Bytes

/-- The call `x.toString('hex')` of the handlers; `none` is an exception.  A buffer gives
its hexadecimal form, a string gives itself (the argument is ignored), a number throws a
`RangeError` (bad radix), `null` and `undefined` throw a `TypeError`. -/
def hexOf (env : Env) : Val → Option String
  | .undefined => none
  | .null => none
  | .num _ => none
  | .bool b => some (if b then "true" else "false")
  | .str s => some s
  | .bin b => some (toHex b)
  | v => env.hexOfOther v

/-- The call `new Buffer(x, 'hex')`; `none` is an exception. -/
def bufferFromHex (env : Env) (x : String) : Option Bytes :=
  match parseHex x.data with
  | some b => some b
  | none => env.bufferOfBadHex x

/-! ## The announcement store `ctx.annByHash` -/

/-- The own properties of the object `ctx.annByHash`, in insertion order. -/
abbrev Store := List (String × Bytes)

/-- The function-valued properties every plain object inherits from `Object.prototype`. -/
def objectPrototypeFunctions : List String :=
  ["constructor", "__defineGetter__", "__defineSetter__", "hasOwnProperty",
   "__lookupGetter__", "__lookupSetter__", "isPrototypeOf", "propertyIsEnumerable",
   "toString", "valueOf", "toLocaleString"]

/-- The read `ctx.annByHash[k]`: the own property, else what the prototype chain gives,
else `undefined`. -/
def annGet (st : Store) (k : String) : Val :=
  match st.lookup k with
  | some b => .bin b
  | none =>
    if k = "__proto__" then .obj []
    else if k ∈ objectPrototypeFunctions then .func k
    else .undefined

/-- The test `k in ctx.annByHash`, which also sees inherited properties. -/
def annHas (st : Store) (k : String) : Bool :=
  (st.lookup k).isSome || k == "__proto__" || objectPrototypeFunctions.contains k

/-- The assignment `ctx.annByHash[k] = v`: an existing key keeps its place, a new one goes
last.  Hashes are hexadecimal strings; the one property name on which an assignment does
something else, `__proto__`, is not one. -/
def annPut (st : Store) (k : String) (v : Bytes) : Store :=
  if (st.lookup k).isSome then st.map (fun e => if e.1 == k then (k, v) else e)
  else st ++ [(k, v)]

/-- The statement `delete ctx.annByHash[k]`. -/
def annDelete (st : Store) (k : String) : Store :=
  st.filter (fun e => !(e.1 == k))

/-! ## Peers and the context -/

/-- A WebSocket as the module sees it: its `readyState` (0 connecting, 1 open, 2 closing,
3 closed) and whether the transport would raise on `send`, `close`, `terminate`. -/
structure Socket where
  readyState : Nat
  sendThrows : Bool
  closeThrows : Bool
  terminateThrows : Bool

/-- A peer object of `mkPeer`; its `id` is its key in the heap. -/
structure Peer where
  socket : Socket
  outgoing : Bool
  timeOfLastMessage : Int

/-- The object `ctx` with its `mut` part, the peer objects it refers to, and the two effect
logs. -/
structure Ctx where
  /-- The array `ctx.peers`, holding references to peer objects. -/
  peers : List Nat
  /-- The peer objects, by id. -/
  heap : Nat → Peer
  annByHash : Store
  version : Int
  /-- The counter `ctx.mut.seq`. -/
  seq : Int
  /-- The counter `ctx.mut.peerIdSeq`. -/
  peerIdSeq : Nat
  /-- Frames handed to the transport, oldest first: receiving peer and message. -/
  sent : List (Nat × Val)
  /-- Calls of `ctx.mut.onAnnounce`, oldest first: peer and payload. -/
  announced : List (Nat × Val)

/-- A handler either returns or throws; either way it leaves a context behind. -/
structure Outcome where
  ctx : Ctx
  threw : Bool

def DROP_AFTER_MS : Int := 60000
def PING_AFTER_MS : Int := 20000
def PING_CYCLE_MS : Int := 5000

/-- Replace the peer object `p` of the heap. -/
def Ctx.setPeer (ctx : Ctx) (p : Nat) (peer : Peer) : Ctx :=
  { ctx with heap := fun q => if q = p then peer else ctx.heap q }

/-- The source function `socketSendable`. -/
def socketSendable (socket : Socket) : Bool :=
  socket.readyState == 1

/-- The `try { close } catch { try { terminate } catch {} }` of `dropPeer`: a call that
does not throw leaves the socket closing. -/
def closeOrTerminate (socket : Socket) : Socket :=
  if !socket.closeThrows then { socket with readyState := 2 }
  else if !socket.terminateThrows then { socket with readyState := 2 }
  else socket

/-- The source function `dropPeer`: close the socket unless it is closing or closed, then
splice the first occurrence of the peer out of `ctx.peers`. -/
def dropPeer (ctx : Ctx) (p : Nat) : Ctx :=
  let peer := ctx.heap p
  let socket :=
    if peer.socket.readyState ≠ 2 ∧ peer.socket.readyState ≠ 3 then closeOrTerminate peer.socket
    else peer.socket
  let ctx1 := ctx.setPeer p { peer with socket := socket }
  { ctx1 with peers := ctx1.peers.erase p }

/-- The source function `sendPeerMsg`: nothing at all when the socket is not sendable;
otherwise the frame is sent, unless encoding or sending throws, in which case the peer is
dropped. -/
def sendPeerMsg (ctx : Ctx) (p : Nat) (msg : Val) : Ctx :=
  if !socketSendable (ctx.heap p).socket then ctx
  else if msg.encodable && !(ctx.heap p).socket.sendThrows then
    { ctx with sent := ctx.sent ++ [(p, msg)] }
  else dropPeer ctx p

/-- The expression `msg[3].map((x) => (x.toString('hex')))` on an array; `none` when a
callback throws. -/
def mapHex (env : Env) : List Val → Option (List String)
  | [] => some []
  | x :: xs =>
    match hexOf env x, mapHex env xs with
    | some h, some hs => some (h :: hs)
    | _, _ => none

/-- The expression `msg[3].map((x) => (x.toString('hex')))`: only arrays and buffers have a
`map`; on a buffer the callback throws at the first byte. -/
def invHexList (env : Env) : Val → Option (List String)
  | .arr items => mapHex env items
  | .bin [] => some []
  | _ => none

/-- The loop `needHex.forEach(...)` of the `INV` case: for each hash the sequence counter
is taken and advanced, then the buffer is built (which may throw), then the request is
sent. -/
def sendGetData (env : Env) (p : Nat) : List String → Ctx → Outcome
  | [], ctx => ⟨ctx, false⟩
  | x :: xs, ctx =>
    let ctx1 := { ctx with seq := ctx.seq + 1 }
    match bufferFromHex env x with
    | none => ⟨ctx1, true⟩
    | some b =>
      sendGetData env p xs
        (sendPeerMsg ctx1 p (.arr [.num ctx.seq, .str "GET_DATA", .bin b]))

/-- The `switch (msg[1])` statement of `handleMessage`, entered once the envelope is checked
and the time of the last message is set: `s` is `msg[0]`, `t` is `msg[1]`. -/
def dispatch (env : Env) (ctx : Ctx) (p : Nat) (s : Int) (t : String) (msg2 msg3 : Val) :
    Outcome :=
  if t = "OLLEH" ∨ t = "HELLO" then
    if decide (t = "HELLO") != (ctx.heap p).outgoing then ⟨dropPeer ctx p, false⟩
    else ⟨ctx, false⟩
  else if t = "GET_DATA" then
    match hexOf env msg2 with
    | none => ⟨ctx, true⟩
    | some hash =>
      let ann := if (annGet ctx.annByHash hash).truthy then annGet ctx.annByHash hash else .null
      ⟨sendPeerMsg ctx p (.arr [.num s, .str "DATA", ann]), false⟩
  else if t = "PING" then
    ⟨sendPeerMsg ctx p (.arr [.num s, .str "ACK"]), false⟩
  else if t = "ACK" then ⟨ctx, false⟩
  else if t = "INV" then
    if !(ctx.heap p).outgoing then ⟨ctx, false⟩
    else
      match invHexList env msg3 with
      | none => ⟨ctx, true⟩
      | some hexList =>
        let needHex := hexList.filter (fun x => !annHas ctx.annByHash x)
        sendGetData env p needHex ctx
  else if t = "DATA" then
    if !(ctx.heap p).outgoing then ⟨ctx, false⟩
    else if !msg2.truthy then ⟨ctx, false⟩
    else ⟨{ ctx with announced := ctx.announced ++ [(p, msg2)] }, false⟩
  else ⟨ctx, false⟩

/-- The source function `handleMessage`, called at time `now` for peer `p` with the raw
frame `message`: decode, check that `msg[0]` is a number and `msg[1]` a string, set the
time of the last message, dispatch.  Reading a field of `null` or `undefined` throws. -/
def handleMessage (env : Env) (now : Int) (ctx : Ctx) (p : Nat) (message : Bytes) : Outcome :=
  match env.decode message with
  | none => ⟨ctx, true⟩
  | some msg =>
    match msg.idx 0, msg.idx 1 with
    | some (.num s), some (.str t) =>
      dispatch env (ctx.setPeer p { ctx.heap p with timeOfLastMessage := now }) p s t
        (msg.field 2) (msg.field 3)
    | _, _ => ⟨ctx, true⟩

/-- The `message` listener that `incoming` and `connectTo` install: `handleMessage` inside
`try`, with `dropPeer` in the `catch`. -/
def onMessage (env : Env) (now : Int) (ctx : Ctx) (p : Nat) (message : Bytes) : Ctx :=
  let r := handleMessage env now ctx p message
  if r.threw then dropPeer r.ctx p else r.ctx

/-- The call `ctx.peers.forEach(f)`.  As `Array.prototype.forEach` does, it fixes the
number of indices to visit when it starts and then, for each index `k` in turn, calls `f`
on the element found at `k` in the array as it is at that moment, skipping `k` when the
array has become too short.  The first argument counts the indices still to visit. -/
def peersForEach (f : Nat → Ctx → Nat → Ctx) : Nat → Nat → Ctx → Ctx
  | 0, _, ctx => ctx
  | n + 1, k, ctx =>
    match ctx.peers.get? k with
    | some p => peersForEach f n (k + 1) (f k ctx p)
    | none => peersForEach f n (k + 1) ctx

/-- The callback of `pingCycle` for the peer found at index `k`, the clock reading
`now k`. -/
def pingStep (now : Nat → Int) (k : Nat) (ctx : Ctx) (p : Nat) : Ctx :=
  let lag := now k - (ctx.heap p).timeOfLastMessage
  if lag > DROP_AFTER_MS then dropPeer ctx p
  else if lag > PING_AFTER_MS then
    sendPeerMsg { ctx with seq := ctx.seq + 1 } p (.arr [.num ctx.seq, .str "PING"])
  else ctx

/-- The source function `pingCycle`; `now k` is the clock read for the index `k`. -/
def pingCycle (now : Nat → Int) (ctx : Ctx) : Ctx :=
  peersForEach (pingStep now) ctx.peers.length 0 ctx

/-- The source function `addAnn`.  The buffer `new Buffer(hash, 'hex')` is built inside the
callback, after the direction test: when it throws, it does so at the first incoming peer
met, and outgoing peers before it are passed without effect. -/
def addAnn (env : Env) (ctx : Ctx) (hash : String) (binary : Bytes) : Outcome :=
  let ctx1 := { ctx with annByHash := annPut ctx.annByHash hash binary }
  match bufferFromHex env hash with
  | some b =>
    ⟨peersForEach
      (fun _ c p =>
        if (c.heap p).outgoing then c
        else sendPeerMsg c p (.arr [.num 0, .str "INV", .num 0, .arr [.bin b]]))
      ctx1.peers.length 0 ctx1, false⟩
  | none => ⟨ctx1, ctx1.peers.any (fun p => !(ctx1.heap p).outgoing)⟩


/-- The host operation `deleteAnn` of `create`: `delete ctx.annByHash[hash]`. -/
def deleteAnn (ctx : Ctx) (hash : String) : Ctx :=
  { ctx with annByHash := annDelete ctx.annByHash hash }

/-- The source function `mkPeer`, called at time `now`: the new peer object takes the next
peer id, which is also its reference in the heap; the result is the context and that
reference. -/
def mkPeer (now : Int) (ctx : Ctx) (socket : Socket) (isOutgoing : Bool) : Ctx × Nat :=
  (({ ctx with peerIdSeq := ctx.peerIdSeq + 1 }).setPeer ctx.peerIdSeq
      ⟨socket, isOutgoing, now⟩, ctx.peerIdSeq)

/-- The value of a string of decimal digits, `none` for anything else. -/
def decimalValue : List Char → Option Nat
  | [] => none
  | cs => cs.foldl
      (fun acc c => match acc with
        | some n => if c.isDigit then some (n * 10 + (c.toNat - 48)) else none
        | none => none)
      (some 0)

/-- Whether a property name is an array index: the canonical decimal form of a number
below `2^32 - 1`. -/
def isArrayIndex (k : String) : Bool :=
  match decimalValue k.data with
  | some n => decide (n < 4294967295) && (toString n == k)
  | none => false

/-- The numeric value of an array index. -/
def arrayIndexValue (k : String) : Nat :=
  (decimalValue k.data).getD 0

/-- The call `Object.keys(ctx.annByHash)`: the keys that are array indices in ascending
numeric order, then the other keys in insertion order. -/
def objectKeys (st : Store) : List String :=
  ((st.map Prod.fst).filter isArrayIndex).insertionSort
      (fun a b => arrayIndexValue a ≤ arrayIndexValue b)
    ++ (st.map Prod.fst).filter (fun k => !isArrayIndex k)

/-- The expression `keys.map((x) => (new Buffer(x, 'hex')))`; `none` when a callback
throws. -/
def mapBuffers (env : Env) : List String → Option (List Bytes)
  | [] => some []
  | x :: xs =>
    match bufferFromHex env x, mapBuffers env xs with
    | some b, some bs => some (b :: bs)
    | _, _ => none

/-- The loop `while (hashes.length) { const h = hashes.splice(0, 128); sendPeerMsg(...) }`
of `incoming`. -/
def sendInvChunks (p : Nat) (hashes : List Bytes) (ctx : Ctx) : Ctx :=
  if _h : hashes.length = 0 then ctx
  else
    sendInvChunks p (hashes.drop 128)
      (sendPeerMsg ctx p
        (.arr [.num 0, .str "INV", .num 0, .arr ((hashes.take 128).map .bin)]))
termination_by hashes.length
decreasing_by
  simp only [List.length_drop]
  omega

/-- The successive values of `hashes.splice(0, 128)` in that loop. -/
def spliceChunks (hashes : List Bytes) : List (List Bytes) :=
  if _h : hashes.length = 0 then []
  else hashes.take 128 :: spliceChunks (hashes.drop 128)
termination_by hashes.length
decreasing_by
  simp only [List.length_drop]
  omega

/-- The source function `incoming`, called at time `now` with a socket whose upgrade request
names `url`.  A socket for another path is closed (an exception of `close` is not caught
here) and no peer is made.  Otherwise: `mkPeer`, the `HELLO`, the push on `ctx.peers`, the
known hashes in chunks of 128; the listeners installed at the end are `onMessage` and
`dropPeer`. -/
def incoming (env : Env) (now : Int) (ctx : Ctx) (socket : Socket) (url : String) : Outcome :=
  if url ≠ "/cjdnsnode_websocket" then ⟨ctx, socket.closeThrows⟩
  else
    let ctx1 := (mkPeer now ctx socket false).1
    let peer := (mkPeer now ctx socket false).2
    let ctx2 := sendPeerMsg ctx1 peer (.arr [.num 0, .str "HELLO", .num ctx.version])
    let ctx3 := { ctx2 with peers := ctx2.peers ++ [peer] }
    match mapBuffers env (objectKeys ctx3.annByHash) with
    | none => ⟨ctx3, true⟩
    | some hashes => ⟨sendInvChunks peer hashes ctx3, false⟩

/-- The continuation of `connectTo` that runs once the socket is open, at time `now`:
`mkPeer`, the push on `ctx.peers`, the `OLLEH`.  The listeners it installs are `onMessage`
and `dropPeer`; the retry timers are not part of the model. -/
def connectToOpen (now : Int) (ctx : Ctx) (socket : Socket) : Ctx :=
  let ctx1 := (mkPeer now ctx socket true).1
  let peer := (mkPeer now ctx socket true).2
  let ctx2 := { ctx1 with peers := ctx1.peers ++ [peer] }
  sendPeerMsg ctx2 peer (.arr [.num 0, .str "OLLEH", .num ctx.version])

/-- The context that the source function `create` builds at time `now`: no peer, an empty
store, version 1, the sequence counter at the clock reading.  No peer object exists yet;
the heap cells hold a placeholder until `mkPeer` fills them. -/
def create (now : Int) : Ctx :=
  ⟨[], fun _ => ⟨⟨3, false, false, false⟩, false, 0⟩, [], 1, now, 0, [], []⟩

/-- The contexts the module can be in: `create`, then any sequence of the events that the
source reacts to.  The transport may change the state of a socket at any time. -/
inductive Reachable (env : Env) : Ctx → Prop
  | create (now : Int) : Reachable env (create now)
  | incoming {c : Ctx} (h : Reachable env c) (now : Int) (socket : Socket) (url : String) :
      Reachable env (incoming env now c socket url).ctx
  | connectToOpen {c : Ctx} (h : Reachable env c) (now : Int) (socket : Socket) :
      Reachable env (connectToOpen now c socket)
  | handleMessage {c : Ctx} (h : Reachable env c) (now : Int) (p : Nat) (message : Bytes) :
      Reachable env (handleMessage env now c p message).ctx
  | dropPeer {c : Ctx} (h : Reachable env c) (p : Nat) : Reachable env (dropPeer c p)
  | addAnn {c : Ctx} (h : Reachable env c) (hash : String) (binary : Bytes) :
      Reachable env (addAnn env c hash binary).ctx
  | deleteAnn {c : Ctx} (h : Reachable env c) (hash : String) :
      Reachable env (deleteAnn c hash)
  | pingCycle {c : Ctx} (h : Reachable env c) (now : Nat → Int) :
      Reachable env (pingCycle now c)
  | transport {c : Ctx} (h : Reachable env c) (p : Nat) (socket : Socket) :
      Reachable env (c.setPeer p { c.heap p with socket := socket })

/-- What a handler working for the single peer `p` may change between `c` and `d`: the
socket of `p`, the presence of `p` in the registry, the frames sent to `p`, and the
counters and logs that belong to no peer. -/
structure Local (p : Nat) (c d : Ctx) : Prop where
  heap_other : ∀ q, q ≠ p → d.heap q = c.heap q
  time_self : (d.heap p).timeOfLastMessage = (c.heap p).timeOfLastMessage
  outgoing_self : (d.heap p).outgoing = (c.heap p).outgoing
  mem_other : ∀ q, q ≠ p → (q ∈ d.peers ↔ q ∈ c.peers)
  sublist : d.peers.Sublist c.peers
  peerIdSeq_eq : d.peerIdSeq = c.peerIdSeq
  sent_to_self : ∃ frames, d.sent = c.sent ++ frames ∧ ∀ m ∈ frames, m.1 = p
  annByHash_eq : d.annByHash = c.annByHash

/-! ## Concrete contexts for witnesses and counterexamples -/

/-- An open socket on which every transport call succeeds. -/
def openSocket : Socket := ⟨1, false, false, false⟩

/-- A closed socket. -/
def closedSocket : Socket := ⟨3, false, false, false⟩

/-- An environment whose codec decodes every frame to `v`. -/
def constEnv (v : Val) : Env := ⟨fun _ => some v, fun _ => none, fun _ => none⟩

/-- A context with the given registry, peer objects and store, nothing sent yet. -/
def sampleCtx (peers : List Nat) (heap : Nat → Peer) (st : Store) : Ctx :=
  ⟨peers, heap, st, 1, 1000, 2, [], []⟩

/-! ## Basic facts on `dropPeer` and `sendPeerMsg` -/

@[simp] theorem setPeer_heap_self (ctx : Ctx) (p : Nat) (peer : Peer) :
    (ctx.setPeer p peer).heap p = peer := by
  simp [Ctx.setPeer]

theorem setPeer_heap_other (ctx : Ctx) (p q : Nat) (peer : Peer) (h : q ≠ p) :
    (ctx.setPeer p peer).heap q = ctx.heap q := by
  simp [Ctx.setPeer, h]

@[simp] theorem setPeer_peers (ctx : Ctx) (p : Nat) (peer : Peer) :
    (ctx.setPeer p peer).peers = ctx.peers := rfl

@[simp] theorem setPeer_sent (ctx : Ctx) (p : Nat) (peer : Peer) :
    (ctx.setPeer p peer).sent = ctx.sent := rfl

@[simp] theorem setPeer_announced (ctx : Ctx) (p : Nat) (peer : Peer) :
    (ctx.setPeer p peer).announced = ctx.announced := rfl

@[simp] theorem setPeer_seq (ctx : Ctx) (p : Nat) (peer : Peer) :
    (ctx.setPeer p peer).seq = ctx.seq := rfl

@[simp] theorem setPeer_annByHash (ctx : Ctx) (p : Nat) (peer : Peer) :
    (ctx.setPeer p peer).annByHash = ctx.annByHash := rfl

@[simp] theorem dropPeer_peers (ctx : Ctx) (p : Nat) :
    (dropPeer ctx p).peers = ctx.peers.erase p := rfl

@[simp] theorem dropPeer_sent (ctx : Ctx) (p : Nat) : (dropPeer ctx p).sent = ctx.sent := rfl

@[simp] theorem dropPeer_announced (ctx : Ctx) (p : Nat) :
    (dropPeer ctx p).announced = ctx.announced := rfl

@[simp] theorem dropPeer_seq (ctx : Ctx) (p : Nat) : (dropPeer ctx p).seq = ctx.seq := rfl

@[simp] theorem dropPeer_annByHash (ctx : Ctx) (p : Nat) :
    (dropPeer ctx p).annByHash = ctx.annByHash := rfl

/-- A send on a sendable socket that the codec and the transport accept appends the frame
to the log and changes nothing else. -/
theorem sendPeerMsg_delivered (ctx : Ctx) (p : Nat) (msg : Val)
    (hopen : socketSendable (ctx.heap p).socket = true) (henc : msg.encodable = true)
    (hsend : (ctx.heap p).socket.sendThrows = false) :
    sendPeerMsg ctx p msg = { ctx with sent := ctx.sent ++ [(p, msg)] } := by
  simp [sendPeerMsg, hopen, henc, hsend]

/-- A send on a socket that is not sendable does nothing at all. -/
theorem sendPeerMsg_not_sendable (ctx : Ctx) (p : Nat) (msg : Val)
    (hclosed : socketSendable (ctx.heap p).socket = false) :
    sendPeerMsg ctx p msg = ctx := by
  simp [sendPeerMsg, hclosed]

/-- A send either appends the frame for that peer to the log or leaves the log as it is. -/
theorem sendPeerMsg_sent_cases (ctx : Ctx) (p : Nat) (msg : Val) :
    (sendPeerMsg ctx p msg).sent = ctx.sent ∨
      (sendPeerMsg ctx p msg).sent = ctx.sent ++ [(p, msg)] := by
  unfold sendPeerMsg
  split
  · exact Or.inl rfl
  · split
    · exact Or.inr rfl
    · exact Or.inl rfl

/-! ## Hexadecimal round trip -/

theorem hexVal_hexDigit (d : Nat) (h : d < 16) : hexVal (hexDigit d) = some d := by
  interval_cases d <;> rfl

/-- Decoding the hexadecimal form of a buffer gives the buffer back. -/
theorem parseHex_hexChars (b : Bytes) : parseHex (hexChars b) = some b := by
  induction b with
  | nil => rfl
  | cons x xs ih =>
    have h1 : x.val / 16 < 16 := by omega
    have h2 : x.val % 16 < 16 := by omega
    have h3 : (Fin.ofNat (x.val / 16 * 16 + x.val % 16) : Fin 256) = x := by
      apply Fin.ext
      simp [Fin.ofNat]
      omega
    simp [hexChars, parseHex, hexVal_hexDigit, h1, h2, ih, h3]

/-- The call `new Buffer(x.toString('hex'), 'hex')` copies the buffer `x`, whatever the
runtime does with malformed strings. -/
theorem bufferFromHex_toHex (env : Env) (b : Bytes) : bufferFromHex env (toHex b) = some b := by
  simp [bufferFromHex, toHex, parseHex_hexChars]

theorem hexDigit_mem (d : Nat) : hexDigit d ∈ hexAlphabet := by
  rcases Nat.lt_or_ge d 16 with h | h
  · interval_cases d <;> decide
  · have : hexDigit d = '0' := by
      unfold hexDigit
      exact List.getD_eq_default _ _ (by simpa using h)
    rw [this]; decide

theorem hexChars_subset (b : Bytes) : ∀ c ∈ hexChars b, c ∈ hexAlphabet := by
  induction b with
  | nil => simp [hexChars]
  | cons x xs ih =>
    intro c hc
    simp only [hexChars, List.mem_cons] at hc
    rcases hc with rfl | rfl | hc
    · exact hexDigit_mem _
    · exact hexDigit_mem _
    · exact ih c hc

/-- No property that a plain object inherits is spelled with hexadecimal digits only. -/
theorem toHex_not_inherited (b : Bytes) :
    toHex b ≠ "__proto__" ∧ toHex b ∉ objectPrototypeFunctions := by
  have key : ∀ k : String, (∃ c ∈ k.data, c ∉ hexAlphabet) → toHex b ≠ k := by
    rintro k ⟨c, hc, hn⟩ rfl
    exact hn (hexChars_subset b c hc)
  refine ⟨key _ ⟨'_', by decide, by decide⟩, ?_⟩
  intro hmem
  simp only [objectPrototypeFunctions, List.mem_cons, List.mem_singleton, List.not_mem_nil, or_false] at hmem
  rcases hmem with h | h | h | h | h | h | h | h | h | h | h
  · exact key _ ⟨'o', by decide, by decide⟩ h
  · exact key _ ⟨'_', by decide, by decide⟩ h
  · exact key _ ⟨'_', by decide, by decide⟩ h
  · exact key _ ⟨'h', by decide, by decide⟩ h
  · exact key _ ⟨'_', by decide, by decide⟩ h
  · exact key _ ⟨'_', by decide, by decide⟩ h
  · exact key _ ⟨'i', by decide, by decide⟩ h
  · exact key _ ⟨'p', by decide, by decide⟩ h
  · exact key _ ⟨'t', by decide, by decide⟩ h
  · exact key _ ⟨'v', by decide, by decide⟩ h
  · exact key _ ⟨'t', by decide, by decide⟩ h

theorem lookup_isSome_iff_mem_keys (st : Store) (k : String) :
    (st.lookup k).isSome = true ↔ k ∈ st.map Prod.fst := by
  induction st with
  | nil => simp
  | cons e es ih =>
    obtain ⟨a, v⟩ := e
    by_cases h : k = a
    · subst h; simp [List.lookup]
    · have h2 : (k == a) = false := by simpa using h
      simp [List.lookup, h2, ih, h]

/-- On the hexadecimal form of a buffer the test `x in ctx.annByHash` is the test for an
own key of the store. -/
theorem annHas_toHex (st : Store) (b : Bytes) :
    annHas st (toHex b) = decide (toHex b ∈ st.map Prod.fst) := by
  obtain ⟨h1, h2⟩ := toHex_not_inherited b
  have h3 : (toHex b == "__proto__") = false := by simpa using h1
  have h4 : objectPrototypeFunctions.contains (toHex b) = false := by simpa using h2
  rw [annHas, h3, h4]
  rcases hk : (st.lookup (toHex b)).isSome with _ | _
  · have := (lookup_isSome_iff_mem_keys st (toHex b)).not.mp (by simp [hk])
    simp [this]
  · have := (lookup_isSome_iff_mem_keys st (toHex b)).mp hk
    simp [this]

/-! ## C1: `PING` is answered by `ACK` -/

/-- C1, as amended.  When `handleMessage` processes a decoded message `[s, 'PING']` for a
peer whose socket is sendable and whose transport accepts the send, it returns normally and
the frames sent are exactly one, `[s, 'ACK']`, to that peer.  For every peer whatsoever the
handler returns normally and sends either that single frame or nothing. -/
theorem handleMessage_ping_ack (env : Env) (now : Int) (ctx : Ctx) (p : Nat) (message : Bytes)
    (s : Int) (hdec : env.decode message = some (.arr [.num s, .str "PING"])) :
    (handleMessage env now ctx p message).threw = false ∧
    (socketSendable (ctx.heap p).socket = true → (ctx.heap p).socket.sendThrows = false →
      (handleMessage env now ctx p message).ctx.sent
        = ctx.sent ++ [(p, .arr [.num s, .str "ACK"])]) ∧
    ((handleMessage env now ctx p message).ctx.sent = ctx.sent ∨
      (handleMessage env now ctx p message).ctx.sent
        = ctx.sent ++ [(p, .arr [.num s, .str "ACK"])]) := by
  have hrun : handleMessage env now ctx p message
      = ⟨sendPeerMsg (ctx.setPeer p { ctx.heap p with timeOfLastMessage := now }) p
          (.arr [.num s, .str "ACK"]), false⟩ := by
    simp [handleMessage, hdec, Val.idx, Val.field, dispatch]
  rw [hrun]
  refine ⟨rfl, ?_, ?_⟩
  · intro hopen hsend
    rw [sendPeerMsg_delivered]
    · rfl
    · simpa using hopen
    · simp [Val.encodable, encodableItems]
    · simpa using hsend
  · simpa using sendPeerMsg_sent_cases
      (ctx.setPeer p { ctx.heap p with timeOfLastMessage := now }) p (.arr [.num s, .str "ACK"])

/-- Witness for C1: an incoming peer with an open socket receives `[7, 'PING']`. -/
theorem handleMessage_ping_ack_witness :
    (handleMessage (constEnv (.arr [.num 7, .str "PING"])) 5
        (sampleCtx [0] (fun _ => ⟨openSocket, false, 0⟩) []) 0 []).ctx.sent
      = [(0, .arr [.num 7, .str "ACK"])] :=
  (handleMessage_ping_ack (constEnv (.arr [.num 7, .str "PING"])) 5
    (sampleCtx [0] (fun _ => ⟨openSocket, false, 0⟩) []) 0 [] 7 rfl).2.1 rfl rfl

/-- Counterexample to C1 as stated: a peer whose socket is closed receives `[7, 'PING']` and
no `ACK` is sent, because `sendPeerMsg` returns at once on a socket that is not sendable. -/
theorem handleMessage_ping_closed_socket_no_ack :
    (constEnv (.arr [.num 7, .str "PING"])).decode [] = some (.arr [.num 7, .str "PING"]) ∧
    (handleMessage (constEnv (.arr [.num 7, .str "PING"])) 5
        (sampleCtx [0] (fun _ => ⟨closedSocket, false, 0⟩) []) 0 []).ctx.sent = [] := by
  constructor <;> rfl

/-! ## C2: inventory reconciliation -/

theorem mapHex_bin (env : Env) (H : List Bytes) :
    mapHex env (H.map Val.bin) = some (H.map toHex) := by
  induction H with
  | nil => rfl
  | cons h hs ih => simp [mapHex, hexOf, ih]

theorem filter_needHex (st : Store) (H : List Bytes) :
    (H.map toHex).filter (fun x => !annHas st x)
      = (H.filter (fun h => decide (toHex h ∉ st.map Prod.fst))).map toHex := by
  induction H with
  | nil => rfl
  | cons h hs ih =>
    by_cases hk : toHex h ∈ st.map Prod.fst
    · simp [List.filter_cons, annHas_toHex, hk] at ih ⊢
      exact ih
    · simp [List.filter_cons, annHas_toHex, hk] at ih ⊢
      exact ih

/-- The request loop on a peer that takes every frame: one `GET_DATA` per hash, in order,
with consecutive sequence numbers starting at the counter. -/
theorem sendGetData_delivered (env : Env) (p : Nat) (bs : List Bytes) :
    ∀ (ctx : Ctx) (c : Int) (k : Nat), ctx.seq = c + k →
      socketSendable (ctx.heap p).socket = true → (ctx.heap p).socket.sendThrows = false →
      sendGetData env p (bs.map toHex) ctx
        = ⟨{ ctx with
              seq := ctx.seq + bs.length
              sent := ctx.sent ++ (bs.enumFrom k).map
                (fun ib => (p, Val.arr [.num (c + ib.1), .str "GET_DATA", .bin ib.2])) },
            false⟩ := by
  induction bs with
  | nil => intro ctx c k _ _ _; simp [sendGetData]
  | cons b bs ih =>
    intro ctx c k hseq hopen hsend
    simp only [List.map_cons, sendGetData, bufferFromHex_toHex]
    rw [sendPeerMsg_delivered { ctx with seq := ctx.seq + 1 } p _ hopen
      (by simp [Val.encodable, encodableItems]) hsend]
    refine (ih _ c (k + 1) ?_ ?_ ?_).trans ?_
    · simp [hseq]; ring
    · exact hopen
    · exact hsend
    · simp [List.enumFrom_cons, hseq]
      ring

theorem handleMessage_inv_run (env : Env) (now : Int) (ctx : Ctx) (p : Nat) (message : Bytes)
    (s : Int) (x : Val) (H : List Bytes)
    (hdec : env.decode message = some (.arr [.num s, .str "INV", x, .arr (H.map .bin)]))
    (hout : (ctx.heap p).outgoing = true) :
    handleMessage env now ctx p message
      = sendGetData env p
          ((H.filter (fun h => decide (toHex h ∉ ctx.annByHash.map Prod.fst))).map toHex)
          (ctx.setPeer p { ctx.heap p with timeOfLastMessage := now }) := by
  simp [handleMessage, hdec, Val.idx, Val.field, dispatch, hout, invHexList, mapHex_bin, filter_needHex]

/-- C2, as amended.  For an outgoing peer, a store and an `INV` message listing the hashes
`H`: when the socket of the peer is sendable and its transport accepts the sends, the
handler returns normally and the frames it sends are exactly one `GET_DATA` to that peer
for each member of `H` whose hexadecimal form is not a key of the store, in the order of
`H`, numbered from the sequence counter; and whatever the state of the socket, if every
hash of `H` is a key of the store then nothing is sent. -/
theorem handleMessage_inv_get_data (env : Env) (now : Int) (ctx : Ctx) (p : Nat)
    (message : Bytes) (s : Int) (x : Val) (H : List Bytes)
    (hdec : env.decode message = some (.arr [.num s, .str "INV", x, .arr (H.map .bin)]))
    (hout : (ctx.heap p).outgoing = true) :
    (socketSendable (ctx.heap p).socket = true → (ctx.heap p).socket.sendThrows = false →
      (handleMessage env now ctx p message).threw = false ∧
      (handleMessage env now ctx p message).ctx.sent
        = ctx.sent ++
          ((H.filter (fun h => decide (toHex h ∉ ctx.annByHash.map Prod.fst))).enum.map
            (fun ih => (p, Val.arr [.num (ctx.seq + ih.1), .str "GET_DATA", .bin ih.2])))) ∧
    ((∀ h ∈ H, toHex h ∈ ctx.annByHash.map Prod.fst) →
      (handleMessage env now ctx p message).threw = false ∧
      (handleMessage env now ctx p message).ctx.sent = ctx.sent) := by
  rw [handleMessage_inv_run env now ctx p message s x H hdec hout]
  constructor
  · intro hopen hsend
    rw [sendGetData_delivered env p _ _ ctx.seq 0 (by simp) (by simpa using hopen)
      (by simpa using hsend)]
    simp [List.enum]
  · intro hall
    have hnil : H.filter (fun h => decide (toHex h ∉ ctx.annByHash.map Prod.fst)) = [] := by
      rw [List.filter_eq_nil_iff]
      intro h hh
      simpa using hall h hh
    rw [hnil]
    simp [sendGetData]

/-- Witness for C2: the store knows `ab`; the outgoing peer advertises `ab`, `cd`, `ab`, `ef`
and is asked for `cd` and `ef`. -/
theorem handleMessage_inv_get_data_witness :
    (handleMessage
        (constEnv (.arr [.num 0, .str "INV", .num 0, .arr ([[171], [205], [171], [239]].map .bin)]))
        5 (sampleCtx [0] (fun _ => ⟨openSocket, true, 0⟩) [("ab", [1, 2])]) 0 []).ctx.sent
      = [(0, .arr [.num 1000, .str "GET_DATA", .bin [205]]),
         (0, .arr [.num 1001, .str "GET_DATA", .bin [239]])] :=
  ((handleMessage_inv_get_data
    (constEnv (.arr [.num 0, .str "INV", .num 0, .arr ([[171], [205], [171], [239]].map .bin)]))
    5 (sampleCtx [0] (fun _ => ⟨openSocket, true, 0⟩) [("ab", [1, 2])]) 0 [] 0 (.num 0)
    [[171], [205], [171], [239]] rfl rfl).1 rfl rfl).2

/-- Counterexample to C2 as stated: an outgoing peer whose socket is closed advertises the
hash `cd`, which is not in the (empty) store, and no `GET_DATA` is sent. -/
theorem handleMessage_inv_closed_socket_no_get_data :
    (sampleCtx [0] (fun _ => ⟨closedSocket, true, 0⟩) []).annByHash = [] ∧
    (handleMessage (constEnv (.arr [.num 0, .str "INV", .num 0, .arr [.bin [205]]])) 5
        (sampleCtx [0] (fun _ => ⟨closedSocket, true, 0⟩) []) 0 []).ctx.sent = [] := by
  constructor <;> rfl

/-! ## C3: handshake direction -/

/-- C3, as amended.  On a handshake message `[s, t, ...]` with `t` one of `HELLO`, `OLLEH`
the handler returns normally, and it drops the peer exactly when a `HELLO` arrives on an
incoming peer or an `OLLEH` on an outgoing peer: the first occurrence of the peer is taken
out of `ctx.peers`, so that a peer listed once is no longer listed.  A `HELLO` on an
outgoing peer and an `OLLEH` on an incoming peer leave the registry as it is. -/
theorem handleMessage_handshake (env : Env) (now : Int) (ctx : Ctx) (p : Nat) (message : Bytes)
    (s : Int) (t : String) (rest : List Val)
    (hdec : env.decode message = some (.arr (.num s :: .str t :: rest)))
    (ht : t = "HELLO" ∨ t = "OLLEH") :
    (handleMessage env now ctx p message).threw = false ∧
    ((t = "HELLO" ∧ (ctx.heap p).outgoing = false ∨ t = "OLLEH" ∧ (ctx.heap p).outgoing = true) →
      (handleMessage env now ctx p message).ctx.peers = ctx.peers.erase p) ∧
    ((t = "HELLO" ∧ (ctx.heap p).outgoing = true ∨ t = "OLLEH" ∧ (ctx.heap p).outgoing = false) →
      (handleMessage env now ctx p message).ctx.peers = ctx.peers) ∧
    (p ∈ ctx.peers → ctx.peers.Nodup →
      (p ∉ (handleMessage env now ctx p message).ctx.peers ↔
        (t = "HELLO" ∧ (ctx.heap p).outgoing = false ∨
          t = "OLLEH" ∧ (ctx.heap p).outgoing = true))) := by
  rcases ht with rfl | rfl <;> cases hout : (ctx.heap p).outgoing <;>
    simp [handleMessage, hdec, Val.idx, Val.field, dispatch, hout] <;>
    intro hmem hnd <;> simp [hnd.mem_erase_iff, hmem]

/-- Witness for C3: `HELLO` on an incoming peer removes it, the other peer stays. -/
theorem handleMessage_handshake_witness :
    (handleMessage (constEnv (.arr [.num 0, .str "HELLO", .num 1])) 5
        (sampleCtx [0, 1] (fun _ => ⟨openSocket, false, 0⟩) []) 0 []).ctx.peers = [1] :=
  (handleMessage_handshake (constEnv (.arr [.num 0, .str "HELLO", .num 1])) 5
    (sampleCtx [0, 1] (fun _ => ⟨openSocket, false, 0⟩) []) 0 [] 0 "HELLO" [.num 1] rfl
    (Or.inl rfl)).2.1 (Or.inl ⟨rfl, rfl⟩)

/-- Counterexample to C3 as stated: a `HELLO` received on an outgoing peer is accepted, the
peer stays in the registry; and a `HELLO` received on an incoming peer is dropped. -/
theorem handleMessage_hello_outgoing_kept :
    (handleMessage (constEnv (.arr [.num 0, .str "HELLO", .num 1])) 5
        (sampleCtx [0] (fun _ => ⟨openSocket, true, 0⟩) []) 0 []).ctx.peers = [0] ∧
    (handleMessage (constEnv (.arr [.num 0, .str "HELLO", .num 1])) 5
        (sampleCtx [0] (fun _ => ⟨openSocket, false, 0⟩) []) 0 []).ctx.peers = [] := by
  constructor <;> rfl

/-! ## C4, C5: `DATA` and the announce callback -/

/-- C4.  For a `DATA` message `[s, 'DATA', payload]`: on an incoming peer the callback is
not invoked, whatever the payload; on an outgoing peer with a non-empty buffer as payload
it is invoked exactly once, with that peer and that payload.  The handler returns
normally. -/
theorem handleMessage_data_announce (env : Env) (now : Int) (ctx : Ctx) (p : Nat)
    (message : Bytes) (s : Int) (payload : Val)
    (hdec : env.decode message = some (.arr [.num s, .str "DATA", payload])) :
    (handleMessage env now ctx p message).threw = false ∧
    ((ctx.heap p).outgoing = false →
      (handleMessage env now ctx p message).ctx.announced = ctx.announced) ∧
    ((ctx.heap p).outgoing = true → ∀ b : Bytes, payload = .bin b → b ≠ [] →
      (handleMessage env now ctx p message).ctx.announced = ctx.announced ++ [(p, payload)]) := by
  refine ⟨?_, ?_, ?_⟩
  · cases hout : (ctx.heap p).outgoing <;> cases htr : payload.truthy <;>
      simp [handleMessage, hdec, Val.idx, Val.field, dispatch, hout, htr]
  · intro hout
    simp [handleMessage, hdec, Val.idx, Val.field, dispatch, hout]
  · rintro hout b rfl _
    simp [handleMessage, hdec, Val.idx, Val.field, dispatch, hout, Val.truthy]

/-- Witness for C4: an outgoing peer delivers a two-byte payload. -/
theorem handleMessage_data_announce_witness :
    (handleMessage (constEnv (.arr [.num 3, .str "DATA", .bin [1, 2]])) 5
        (sampleCtx [0] (fun _ => ⟨openSocket, true, 0⟩) []) 0 []).ctx.announced
      = [(0, .bin [1, 2])] :=
  (handleMessage_data_announce (constEnv (.arr [.num 3, .str "DATA", .bin [1, 2]])) 5
    (sampleCtx [0] (fun _ => ⟨openSocket, true, 0⟩) []) 0 [] 3 (.bin [1, 2]) rfl).2.2
    rfl [1, 2] rfl (by decide)

/-- C5, as amended.  For an outgoing peer, a `DATA` message whose payload is absent (the
message has two fields), `null` or `undefined` does not invoke the callback; a `DATA`
message whose payload is the zero-length buffer invokes it once with that buffer. -/
theorem handleMessage_data_absent_payload (env : Env) (now : Int) (ctx : Ctx) (p : Nat)
    (message : Bytes) (s : Int) (hout : (ctx.heap p).outgoing = true) :
    ((env.decode message = some (.arr [.num s, .str "DATA"]) ∨
        env.decode message = some (.arr [.num s, .str "DATA", .null]) ∨
        env.decode message = some (.arr [.num s, .str "DATA", .undefined])) →
      (handleMessage env now ctx p message).threw = false ∧
      (handleMessage env now ctx p message).ctx.announced = ctx.announced) ∧
    (env.decode message = some (.arr [.num s, .str "DATA", .bin []]) →
      (handleMessage env now ctx p message).threw = false ∧
      (handleMessage env now ctx p message).ctx.announced
        = ctx.announced ++ [(p, .bin [])]) := by
  constructor
  · rintro (hdec | hdec | hdec) <;>
      simp [handleMessage, hdec, Val.idx, Val.field, dispatch, hout, Val.truthy]
  · intro hdec
    simp [handleMessage, hdec, Val.idx, Val.field, dispatch, hout, Val.truthy]

/-- Witness for C5: a `DATA` message carrying `null` on an outgoing peer. -/
theorem handleMessage_data_absent_payload_witness :
    (handleMessage (constEnv (.arr [.num 3, .str "DATA", .null])) 5
        (sampleCtx [0] (fun _ => ⟨openSocket, true, 0⟩) []) 0 []).ctx.announced = [] :=
  ((handleMessage_data_absent_payload (constEnv (.arr [.num 3, .str "DATA", .null])) 5
    (sampleCtx [0] (fun _ => ⟨openSocket, true, 0⟩) []) 0 [] 3 rfl).1 (Or.inr (Or.inl rfl))).2

/-- Counterexample to C5 as stated: on an outgoing peer a `DATA` message whose payload is
the zero-length buffer is not ignored, the callback is invoked with it. -/
theorem handleMessage_data_empty_buffer_announced :
    (handleMessage (constEnv (.arr [.num 3, .str "DATA", .bin []])) 5
        (sampleCtx [0] (fun _ => ⟨openSocket, true, 0⟩) []) 0 []).ctx.announced
      = [(0, .bin [])] := by
  rfl

/-! ## C6: an added announcement is served -/

theorem lookup_map_replace (st : Store) (k : String) (v : Bytes)
    (h : (st.lookup k).isSome = true) :
    (st.map (fun e => if e.1 == k then (k, v) else e)).lookup k = some v := by
  induction st with
  | nil => simp at h
  | cons e es ih =>
    obtain ⟨a, w⟩ := e
    by_cases hk : k = a
    · subst hk
      simp only [List.map_cons, beq_self_eq_true, if_true, List.lookup_cons]
    · have h2 : (k == a) = false := by simpa using hk
      have h3 : (a == k) = false := by simpa using (Ne.symm hk)
      simp only [List.lookup_cons, h2] at h
      simp only [List.map_cons, h3, Bool.false_eq_true, if_false, List.lookup_cons, h2]
      exact ih h

theorem lookup_append_new (st : Store) (k : String) (v : Bytes)
    (h : (st.lookup k).isSome = false) :
    (st ++ [(k, v)]).lookup k = some v := by
  induction st with
  | nil => simp [List.lookup]
  | cons e es ih =>
    obtain ⟨a, w⟩ := e
    by_cases hk : k = a
    · subst hk; simp [List.lookup] at h
    · have h2 : (k == a) = false := by simpa using hk
      simp only [List.lookup_cons, h2] at h
      simp only [List.cons_append, List.lookup_cons, h2]
      exact ih h

theorem lookup_annPut (st : Store) (k : String) (v : Bytes) :
    (annPut st k v).lookup k = some v := by
  unfold annPut
  split
  · rename_i h
    exact lookup_map_replace st k v h
  · rename_i h
    exact lookup_append_new st k v (Bool.eq_false_iff.mpr h)

theorem annGet_annPut (st : Store) (k : String) (v : Bytes) :
    annGet (annPut st k v) k = .bin v := by
  simp [annGet, lookup_annPut]

/-- A property of the context that the callback keeps is kept by the whole `forEach`. -/
theorem peersForEach_preserves (P : Ctx → Prop) (f : Nat → Ctx → Nat → Ctx)
    (hf : ∀ k c p, P c → P (f k c p)) :
    ∀ (n k : Nat) (ctx : Ctx), P ctx → P (peersForEach f n k ctx) := by
  intro n
  induction n with
  | zero => intro k ctx h; simpa [peersForEach] using h
  | succ n ih =>
    intro k ctx h
    unfold peersForEach
    split
    · exact ih _ _ (hf _ _ _ h)
    · exact ih _ _ h

@[simp] theorem sendPeerMsg_annByHash (ctx : Ctx) (p : Nat) (msg : Val) :
    (sendPeerMsg ctx p msg).annByHash = ctx.annByHash := by
  unfold sendPeerMsg
  split
  · rfl
  · split <;> rfl

theorem addAnn_toHex (env : Env) (ctx : Ctx) (b payload : Bytes) :
    (addAnn env ctx (toHex b) payload).threw = false ∧
    (addAnn env ctx (toHex b) payload).ctx.annByHash = annPut ctx.annByHash (toHex b) payload := by
  simp only [addAnn, bufferFromHex_toHex, true_and]
  apply peersForEach_preserves
    (fun c => c.annByHash = annPut ctx.annByHash (toHex b) payload)
  · intro k c p hc
    dsimp only
    split
    · exact hc
    · simpa using hc
  · rfl

/-- C6, as amended.  Let `h` be a hash, that is the hexadecimal form of a byte string `b`, and `p` a
payload.  `addAnn(h, p)` returns normally, the bytes it advertises for `h` are `b`, and in
the context it leaves a message `[s, 'GET_DATA', b]` handled for a peer whose socket is
sendable and whose transport accepts the send is answered by exactly `[s, 'DATA', p]`. -/
theorem addAnn_then_get_data (env : Env) (now : Int) (ctx : Ctx) (b payload : Bytes) (q : Nat)
    (message : Bytes) (s : Int)
    (hdec : env.decode message = some (.arr [.num s, .str "GET_DATA", .bin b]))
    (hopen : socketSendable ((addAnn env ctx (toHex b) payload).ctx.heap q).socket = true)
    (hsend : ((addAnn env ctx (toHex b) payload).ctx.heap q).socket.sendThrows = false) :
    (addAnn env ctx (toHex b) payload).threw = false ∧
    bufferFromHex env (toHex b) = some b ∧
    (handleMessage env now (addAnn env ctx (toHex b) payload).ctx q message).threw = false ∧
    (handleMessage env now (addAnn env ctx (toHex b) payload).ctx q message).ctx.sent
      = (addAnn env ctx (toHex b) payload).ctx.sent ++ [(q, .arr [.num s, .str "DATA", .bin payload])] := by
  obtain ⟨hthrew, hstore⟩ := addAnn_toHex env ctx b payload
  refine ⟨hthrew, bufferFromHex_toHex env b, ?_⟩
  generalize (addAnn env ctx (toHex b) payload).ctx = c1 at hopen hsend hstore ⊢
  have hrun : handleMessage env now c1 q message
      = ⟨sendPeerMsg (c1.setPeer q { c1.heap q with timeOfLastMessage := now }) q
          (.arr [.num s, .str "DATA", .bin payload]), false⟩ := by
    simp [handleMessage, hdec, Val.idx, Val.field, dispatch, hexOf, hstore, annGet_annPut, Val.truthy]
  rw [hrun, sendPeerMsg_delivered]
  · exact ⟨rfl, rfl⟩
  · simpa using hopen
  · simp [Val.encodable, encodableItems]
  · simpa using hsend

/-- Witness for C6: `addAnn('ab', [1, 2])` with one incoming peer, which then asks for the
advertised hash. -/
theorem addAnn_then_get_data_witness :
    (handleMessage (constEnv (.arr [.num 7, .str "GET_DATA", .bin [171]])) 5
        (addAnn (constEnv (.arr [.num 7, .str "GET_DATA", .bin [171]]))
          (sampleCtx [0] (fun _ => ⟨openSocket, false, 0⟩) []) (toHex [171]) [1, 2]).ctx
        0 []).ctx.sent
      = [(0, .arr [.num 0, .str "INV", .num 0, .arr [.bin [171]]]),
         (0, .arr [.num 7, .str "DATA", .bin [1, 2]])] :=
  (addAnn_then_get_data (constEnv (.arr [.num 7, .str "GET_DATA", .bin [171]])) 5
    (sampleCtx [0] (fun _ => ⟨openSocket, false, 0⟩) []) [171] [1, 2] 0 [] 7 rfl rfl rfl).2.2.2

/-- Counterexample to C6 as stated: the peer's socket is sendable (`readyState` 1) but its
transport raises on `send`.  `addAnn('ab', [1, 2])` stores the payload and leaves the
socket of this outgoing peer sendable; the `GET_DATA` for `ab` then handled for it gets no
`DATA` reply, the failed send drops the peer. -/
theorem addAnn_then_get_data_throwing_send_no_reply :
    socketSendable ((addAnn (constEnv (.arr [.num 7, .str "GET_DATA", .bin [171]]))
      (sampleCtx [0] (fun _ => ⟨⟨1, true, false, false⟩, true, 0⟩) []) (toHex [171])
      [1, 2]).ctx.heap 0).socket = true ∧
    (addAnn (constEnv (.arr [.num 7, .str "GET_DATA", .bin [171]]))
      (sampleCtx [0] (fun _ => ⟨⟨1, true, false, false⟩, true, 0⟩) []) (toHex [171])
      [1, 2]).ctx.annByHash = [("ab", [1, 2])] ∧
    (handleMessage (constEnv (.arr [.num 7, .str "GET_DATA", .bin [171]])) 5
        (addAnn (constEnv (.arr [.num 7, .str "GET_DATA", .bin [171]]))
          (sampleCtx [0] (fun _ => ⟨⟨1, true, false, false⟩, true, 0⟩) []) (toHex [171])
          [1, 2]).ctx 0 []).ctx.sent = [] ∧
    (handleMessage (constEnv (.arr [.num 7, .str "GET_DATA", .bin [171]])) 5
        (addAnn (constEnv (.arr [.num 7, .str "GET_DATA", .bin [171]]))
          (sampleCtx [0] (fun _ => ⟨⟨1, true, false, false⟩, true, 0⟩) []) (toHex [171])
          [1, 2]).ctx 0 []).ctx.peers = [] := by
  refine ⟨?_, ?_, ?_, ?_⟩ <;> rfl

/-! ## C7, C8: the keepalive sweep -/

/-- C7, the code at the failing input.  Two peers are in the registry, both idle for
100000 ms, more than `DROP_AFTER_MS`.  One tick drops peer 0; the splice moves peer 1 to
index 0, the walk goes on at index 1, and peer 1 is still in the registry after the
tick. -/
theorem pingCycle_second_stale_peer_survives :
    (∀ q ∈ (sampleCtx [0, 1] (fun _ => ⟨openSocket, false, 0⟩) []).peers,
      (100000 : Int) - ((sampleCtx [0, 1] (fun _ => ⟨openSocket, false, 0⟩) []).heap q).timeOfLastMessage
        > DROP_AFTER_MS) ∧
    (pingCycle (fun _ => 100000) (sampleCtx [0, 1] (fun _ => ⟨openSocket, false, 0⟩) [])).peers
      = [1] := by
  constructor
  · intro q _
    show (100000 : Int) - 0 > 60000
    decide
  · rfl

/-- C8, the code at the failing input.  Peer 0 has been idle for 100000 ms and peer 1, whose
socket is sendable, for 30000 ms, between `PING_AFTER_MS` and `DROP_AFTER_MS`.  One tick
drops peer 0 and never visits peer 1: no `PING` is sent and the sequence counter does not
move. -/
theorem pingCycle_peer_after_dropped_not_pinged :
    (pingCycle (fun _ => 100000)
      (sampleCtx [0, 1] (fun q => ⟨openSocket, false, if q = 0 then 0 else 70000⟩) [])).sent = [] ∧
    (pingCycle (fun _ => 100000)
      (sampleCtx [0, 1] (fun q => ⟨openSocket, false, if q = 0 then 0 else 70000⟩) [])).seq = 1000 ∧
    (pingCycle (fun _ => 100000)
      (sampleCtx [0, 1] (fun q => ⟨openSocket, false, if q = 0 then 0 else 70000⟩) [])).peers = [1] := by
  refine ⟨?_, ?_, ?_⟩ <;> rfl

/-! ## C9: malformed input -/

/-- C9.  When the frame does not decode, or decodes to a value of which the first field is
not a number or the second not a string (or of which no field can be read), the message
listener removes the first occurrence of the peer from `ctx.peers`, so that a peer listed
once is no longer listed, and sends nothing. -/
theorem onMessage_malformed (env : Env) (now : Int) (ctx : Ctx) (p : Nat) (message : Bytes)
    (hbad : env.decode message = none ∨
      ∃ msg, env.decode message = some msg ∧
        ∀ a b, msg.idx 0 = some a → msg.idx 1 = some b → (a.isNumber && b.isString) = false) :
    (onMessage env now ctx p message).peers = ctx.peers.erase p ∧
    (ctx.peers.Nodup → p ∉ (onMessage env now ctx p message).peers) ∧
    (onMessage env now ctx p message).sent = ctx.sent := by
  have hrun : handleMessage env now ctx p message = ⟨ctx, true⟩ := by
    rcases hbad with hdec | ⟨msg, hdec, hbad⟩
    · simp [handleMessage, hdec]
    · unfold handleMessage
      rw [hdec]
      dsimp only
      split
      · rename_i s t h0 h1
        simpa [Val.isNumber, Val.isString] using hbad _ _ h0 h1
      · rfl
  have hdrop : onMessage env now ctx p message = dropPeer ctx p := by
    simp [onMessage, hrun]
  rw [hdrop]
  refine ⟨rfl, ?_, rfl⟩
  intro hnd
  simp [hnd.mem_erase_iff]

/-- Witness for C9: a frame that decodes to `['PING', 1]`, fields in the wrong order. -/
theorem onMessage_malformed_witness :
    (onMessage (constEnv (.arr [.str "PING", .num 1])) 5
        (sampleCtx [0, 1] (fun _ => ⟨openSocket, false, 0⟩) []) 0 []).peers = [1] ∧
    (onMessage (constEnv (.arr [.str "PING", .num 1])) 5
        (sampleCtx [0, 1] (fun _ => ⟨openSocket, false, 0⟩) []) 0 []).sent = [] :=
  have h := onMessage_malformed (constEnv (.arr [.str "PING", .num 1])) 5
    (sampleCtx [0, 1] (fun _ => ⟨openSocket, false, 0⟩) []) 0 []
    (Or.inr ⟨.arr [.str "PING", .num 1], rfl, by
      intro a b ha hb
      cases ha
      rfl⟩)
  ⟨h.1, h.2.2⟩

/-! ## C10: send failure -/

/-- C10, as amended.  When the socket is sendable and the send throws (the transport
raises, or the codec rejects the message), no frame is delivered and the peer is dropped:
its first occurrence is removed from `ctx.peers`, so that a peer listed once is no longer
listed.  When the socket is not sendable, `sendPeerMsg` does nothing: no frame is
delivered and the context, registry included, is unchanged. -/
theorem sendPeerMsg_failure (ctx : Ctx) (p : Nat) (msg : Val) :
    (socketSendable (ctx.heap p).socket = true →
      ((ctx.heap p).socket.sendThrows = true ∨ msg.encodable = false) →
      (sendPeerMsg ctx p msg).sent = ctx.sent ∧
      (sendPeerMsg ctx p msg).peers = ctx.peers.erase p ∧
      (ctx.peers.Nodup → p ∉ (sendPeerMsg ctx p msg).peers)) ∧
    (socketSendable (ctx.heap p).socket = false → sendPeerMsg ctx p msg = ctx) := by
  constructor
  · intro hopen hfail
    have hrun : sendPeerMsg ctx p msg = dropPeer ctx p := by
      rcases hfail with h | h <;> simp [sendPeerMsg, hopen, h]
    rw [hrun]
    refine ⟨rfl, rfl, ?_⟩
    intro hnd
    simp [hnd.mem_erase_iff]
  · exact sendPeerMsg_not_sendable ctx p msg

/-- Witness for C10: the transport of peer 0 raises on `send`. -/
theorem sendPeerMsg_failure_witness :
    (sendPeerMsg (sampleCtx [0, 1] (fun _ => ⟨⟨1, true, false, false⟩, false, 0⟩) []) 0
        (.arr [.num 1, .str "PING"])).sent = [] ∧
    (sendPeerMsg (sampleCtx [0, 1] (fun _ => ⟨⟨1, true, false, false⟩, false, 0⟩) []) 0
        (.arr [.num 1, .str "PING"])).peers = [1] :=
  have h := (sendPeerMsg_failure (sampleCtx [0, 1] (fun _ => ⟨⟨1, true, false, false⟩, false, 0⟩) [])
    0 (.arr [.num 1, .str "PING"])).1 rfl (Or.inl rfl)
  ⟨h.1, h.2.1⟩

/-- Counterexample to C10 as stated: the socket of peer 0 is closed, so `sendPeerMsg` cannot
send; nothing is delivered, but the peer is not dropped, it is still in the registry. -/
theorem sendPeerMsg_closed_socket_not_dropped :
    socketSendable ((sampleCtx [0, 1] (fun _ => ⟨closedSocket, false, 0⟩) []).heap 0).socket = false ∧
    (sendPeerMsg (sampleCtx [0, 1] (fun _ => ⟨closedSocket, false, 0⟩) []) 0
        (.arr [.num 1, .str "PING"])).sent = [] ∧
    (sendPeerMsg (sampleCtx [0, 1] (fun _ => ⟨closedSocket, false, 0⟩) []) 0
        (.arr [.num 1, .str "PING"])).peers = [0, 1] := by
  refine ⟨?_, ?_, ?_⟩ <;> rfl

/-! ## What a handler for one peer can touch -/

theorem Local.refl (p : Nat) (c : Ctx) : Local p c c :=
  ⟨fun _ _ => rfl, rfl, rfl, fun _ _ => Iff.rfl, List.Sublist.refl _, rfl,
    ⟨[], by simp, by simp⟩, rfl⟩

theorem Local.trans {p : Nat} {a b c : Ctx} (h1 : Local p a b) (h2 : Local p b c) :
    Local p a c := by
  obtain ⟨f1, hf1, hm1⟩ := h1.sent_to_self
  obtain ⟨f2, hf2, hm2⟩ := h2.sent_to_self
  refine ⟨fun q hq => (h2.heap_other q hq).trans (h1.heap_other q hq),
    h2.time_self.trans h1.time_self, h2.outgoing_self.trans h1.outgoing_self,
    fun q hq => (h2.mem_other q hq).trans (h1.mem_other q hq),
    h2.sublist.trans h1.sublist, h2.peerIdSeq_eq.trans h1.peerIdSeq_eq,
    ⟨f1 ++ f2, ?_, ?_⟩, h2.annByHash_eq.trans h1.annByHash_eq⟩
  · rw [hf2, hf1, List.append_assoc]
  · intro m hm
    rcases List.mem_append.mp hm with h | h
    · exact hm1 m h
    · exact hm2 m h

theorem local_dropPeer (c : Ctx) (p : Nat) : Local p c (dropPeer c p) := by
  refine ⟨?_, ?_, ?_, ?_, ?_, rfl, ⟨[], by simp, by simp⟩, rfl⟩
  · intro q hq
    simp [dropPeer, Ctx.setPeer, hq]
  · simp [dropPeer, Ctx.setPeer]
  · simp [dropPeer, Ctx.setPeer]
  · intro q hq
    simp [List.mem_erase_of_ne hq]
  · simpa using List.erase_sublist p c.peers

theorem local_sendPeerMsg (c : Ctx) (p : Nat) (msg : Val) : Local p c (sendPeerMsg c p msg) := by
  unfold sendPeerMsg
  split
  · exact Local.refl p c
  · split
    · exact ⟨fun _ _ => rfl, rfl, rfl, fun _ _ => Iff.rfl, List.Sublist.refl _, rfl,
        ⟨[(p, msg)], rfl, by simp⟩, rfl⟩
    · exact local_dropPeer c p

theorem local_seq (c : Ctx) (p : Nat) (n : Int) : Local p c { c with seq := n } :=
  ⟨fun _ _ => rfl, rfl, rfl, fun _ _ => Iff.rfl, List.Sublist.refl _, rfl,
    ⟨[], by simp, by simp⟩, rfl⟩

theorem local_announced (c : Ctx) (p : Nat) (l : List (Nat × Val)) :
    Local p c { c with announced := l } :=
  ⟨fun _ _ => rfl, rfl, rfl, fun _ _ => Iff.rfl, List.Sublist.refl _, rfl,
    ⟨[], by simp, by simp⟩, rfl⟩

theorem local_sendGetData (env : Env) (p : Nat) (xs : List String) :
    ∀ c : Ctx, Local p c (sendGetData env p xs c).ctx := by
  induction xs with
  | nil => intro c; exact Local.refl p c
  | cons x xs ih =>
    intro c
    unfold sendGetData
    dsimp only
    split
    · exact local_seq c p _
    · exact ((local_seq c p _).trans (local_sendPeerMsg _ p _)).trans (ih _)

theorem local_dispatch (env : Env) (c : Ctx) (p : Nat) (s : Int) (t : String)
    (msg2 msg3 : Val) : Local p c (dispatch env c p s t msg2 msg3).ctx := by
  unfold dispatch
  split
  · split
    · exact local_dropPeer c p
    · exact Local.refl p c
  · split
    · split
      · exact Local.refl p c
      · exact local_sendPeerMsg c p _
    · split
      · exact local_sendPeerMsg c p _
      · split
        · exact Local.refl p c
        · split
          · split
            · exact Local.refl p c
            · split
              · exact Local.refl p c
              · exact local_sendGetData env p _ c
          · split
            · split
              · exact Local.refl p c
              · split
                · exact Local.refl p c
                · exact local_announced c p _
            · exact Local.refl p c

/-! ## C11: `dropPeer` twice -/

theorem Ctx.eq_of_fields (a b : Ctx) (h1 : a.peers = b.peers) (h2 : a.heap = b.heap)
    (h3 : a.annByHash = b.annByHash) (h4 : a.version = b.version) (h5 : a.seq = b.seq)
    (h6 : a.peerIdSeq = b.peerIdSeq) (h7 : a.sent = b.sent) (h8 : a.announced = b.announced) :
    a = b := by
  cases a; cases b; simp_all

theorem closeOrTerminate_readyState (s : Socket) :
    (closeOrTerminate s).readyState = 2 ∨ closeOrTerminate s = s := by
  unfold closeOrTerminate
  split
  · exact Or.inl rfl
  · split
    · exact Or.inl rfl
    · exact Or.inr rfl

theorem closeOrTerminate_idem (s : Socket) :
    closeOrTerminate (closeOrTerminate s) = closeOrTerminate s := by
  unfold closeOrTerminate
  cases h1 : s.closeThrows <;> cases h2 : s.terminateThrows <;> simp [h1, h2]

theorem dropPeer_heap_idem (c : Ctx) (p : Nat) :
    (dropPeer (dropPeer c p) p).heap = (dropPeer c p).heap := by
  funext q
  by_cases hq : q = p
  · subst hq
    simp only [dropPeer, Ctx.setPeer, if_true]
    by_cases h : (c.heap q).socket.readyState ≠ 2 ∧ (c.heap q).socket.readyState ≠ 3
    · rw [if_pos h]
      rcases closeOrTerminate_readyState (c.heap q).socket with h2 | h2
      · simp [h2]
      · simp [h2, h]
    · rw [if_neg h]
      simp [h]
  · simp [dropPeer, Ctx.setPeer, hq]

/-- C11.  For every context and peer: a second `dropPeer` leaves every peer object, and so
the socket of the dropped peer, as the first one left it; on a registry that lists no peer
twice, which is every registry the module builds, the context after two calls is the
context after one; and `dropPeer` on a peer that is not in the registry leaves `ctx.peers`
as it is.  (`dropPeer` has no exceptional outcome: every call that can throw is inside a
`try`.  The transport answers the second `close` as it answered the first.) -/
theorem dropPeer_idempotent (ctx : Ctx) (p : Nat) :
    (dropPeer (dropPeer ctx p) p).heap = (dropPeer ctx p).heap ∧
    (ctx.peers.Nodup → dropPeer (dropPeer ctx p) p = dropPeer ctx p) ∧
    (p ∉ ctx.peers → (dropPeer ctx p).peers = ctx.peers) := by
  refine ⟨dropPeer_heap_idem ctx p, ?_, ?_⟩
  · intro hnd
    apply Ctx.eq_of_fields
    · have : p ∉ ctx.peers.erase p := by simp [hnd.mem_erase_iff]
      simpa using List.erase_of_not_mem this
    · exact dropPeer_heap_idem ctx p
    all_goals rfl
  · intro hp
    simpa using List.erase_of_not_mem hp

/-- Witness for C11: peer 0 of a registry of two is dropped twice. -/
theorem dropPeer_idempotent_witness :
    dropPeer (dropPeer (sampleCtx [0, 1] (fun _ => ⟨openSocket, false, 0⟩) []) 0) 0
      = dropPeer (sampleCtx [0, 1] (fun _ => ⟨openSocket, false, 0⟩) []) 0 ∧
    (dropPeer (sampleCtx [0, 1] (fun _ => ⟨openSocket, false, 0⟩) []) 7).peers = [0, 1] :=
  ⟨(dropPeer_idempotent (sampleCtx [0, 1] (fun _ => ⟨openSocket, false, 0⟩) []) 0).2.1
      (by decide),
    (dropPeer_idempotent (sampleCtx [0, 1] (fun _ => ⟨openSocket, false, 0⟩) []) 7).2.2
      (by decide)⟩

/-! ## C12: dissemination of a new announcement -/

/-- C12, the code at the failing input.  Two incoming peers with open sockets are in the
registry; the transport of peer 0 raises on `send`, that of peer 1 does not.
`addAnn('ab', ...)` returns normally and stores the payload; the failed send drops peer 0
inside `ctx.peers.forEach`, peer 1 moves to index 0 and is never visited: no `INV` is sent
to it. -/
theorem addAnn_peer_after_dropped_gets_no_inv :
    socketSendable ((sampleCtx [0, 1]
      (fun q => ⟨⟨1, decide (q = 0), false, false⟩, false, 0⟩) []).heap 1).socket = true ∧
    ((sampleCtx [0, 1]
      (fun q => ⟨⟨1, decide (q = 0), false, false⟩, false, 0⟩) []).heap 1).socket.sendThrows
        = false ∧
    (addAnn (constEnv .null)
      (sampleCtx [0, 1] (fun q => ⟨⟨1, decide (q = 0), false, false⟩, false, 0⟩) [])
      "ab" [1, 2]).threw = false ∧
    (addAnn (constEnv .null)
      (sampleCtx [0, 1] (fun q => ⟨⟨1, decide (q = 0), false, false⟩, false, 0⟩) [])
      "ab" [1, 2]).ctx.annByHash = [("ab", [1, 2])] ∧
    (addAnn (constEnv .null)
      (sampleCtx [0, 1] (fun q => ⟨⟨1, decide (q = 0), false, false⟩, false, 0⟩) [])
      "ab" [1, 2]).ctx.peers = [1] ∧
    (addAnn (constEnv .null)
      (sampleCtx [0, 1] (fun q => ⟨⟨1, decide (q = 0), false, false⟩, false, 0⟩) [])
      "ab" [1, 2]).ctx.sent = [] := by
  refine ⟨?_, ?_, ?_, ?_, ?_, ?_⟩ <;> rfl

/-! ## C13: the inventory sent to a new inbound peer -/

theorem spliceChunks_nil : spliceChunks [] = [] := by
  rw [spliceChunks]; simp

theorem spliceChunks_of_ne_nil (hashes : List Bytes) (h : hashes ≠ []) :
    spliceChunks hashes = hashes.take 128 :: spliceChunks (hashes.drop 128) := by
  rw [spliceChunks]
  simp [h]

theorem sendInvChunks_nil (p : Nat) (c : Ctx) : sendInvChunks p [] c = c := by
  rw [sendInvChunks]; simp

theorem sendInvChunks_of_ne_nil (p : Nat) (hashes : List Bytes) (c : Ctx) (h : hashes ≠ []) :
    sendInvChunks p hashes c
      = sendInvChunks p (hashes.drop 128)
          (sendPeerMsg c p
            (.arr [.num 0, .str "INV", .num 0, .arr ((hashes.take 128).map .bin)])) := by
  rw [sendInvChunks]
  simp [h]

theorem encodableItems_bin (l : List Bytes) : encodableItems (l.map Val.bin) = true := by
  induction l with
  | nil => rfl
  | cons b bs ih => simp [encodableItems, Val.encodable, ih]

/-- The chunk loop run for a peer that takes every frame: one `INV` per chunk, in order. -/
theorem sendInvChunks_delivered (p : Nat) :
    ∀ (n : Nat) (hashes : List Bytes) (c : Ctx), hashes.length ≤ n →
      socketSendable (c.heap p).socket = true → (c.heap p).socket.sendThrows = false →
      sendInvChunks p hashes c
        = { c with
            sent := c.sent ++ List.map
              (fun ch => (p, Val.arr [.num 0, .str "INV", .num 0, .arr (ch.map .bin)]))
              (spliceChunks hashes) } := by
  intro n
  induction n with
  | zero =>
    intro hashes c hlen _ _
    have : hashes = [] := List.length_eq_zero.mp (Nat.le_zero.mp hlen)
    subst this
    simp [sendInvChunks_nil, spliceChunks_nil]
  | succ n ih =>
    intro hashes c hlen hopen hsend
    by_cases hne : hashes = []
    · subst hne
      simp [sendInvChunks_nil, spliceChunks_nil]
    · rw [sendInvChunks_of_ne_nil p hashes c hne, spliceChunks_of_ne_nil hashes hne]
      rw [sendPeerMsg_delivered c p _ hopen
        (by
          have henc := encodableItems_bin (hashes.take 128)
          simp only [Val.encodable, encodableItems, henc, Bool.and_self]) hsend]
      have hpos : 0 < hashes.length := List.length_pos.mpr hne
      refine (ih _ _ ?_ ?_ ?_).trans ?_
      · simp only [List.length_drop]; omega
      · exact hopen
      · exact hsend
      · simp

/-- The chunks of the loop, put end to end, are the list; each has at most 128 hashes, each
but the last exactly 128, and there are `ceil(n / 128)` of them. -/
theorem spliceChunks_spec :
    ∀ (n : Nat) (hashes : List Bytes), hashes.length ≤ n →
      (spliceChunks hashes).flatten = hashes ∧
      (spliceChunks hashes).length = (hashes.length + 127) / 128 ∧
      (∀ ch ∈ spliceChunks hashes, ch.length ≤ 128) ∧
      (∀ i ch, (spliceChunks hashes).get? i = some ch → i + 1 < (spliceChunks hashes).length →
        ch.length = 128) := by
  intro n
  induction n with
  | zero =>
    intro hashes hlen
    have : hashes = [] := List.length_eq_zero.mp (Nat.le_zero.mp hlen)
    subst this
    simp [spliceChunks_nil]
  | succ n ih =>
    intro hashes hlen
    by_cases hne : hashes = []
    · subst hne
      simp [spliceChunks_nil]
    · have hpos : 0 < hashes.length := List.length_pos.mpr hne
      have hdrop : (hashes.drop 128).length ≤ n := by
        simp only [List.length_drop]; omega
      obtain ⟨h1, h2, h3, h4⟩ := ih (hashes.drop 128) hdrop
      rw [spliceChunks_of_ne_nil hashes hne]
      refine ⟨?_, ?_, ?_, ?_⟩
      · simp [h1]
      · simp only [List.length_cons, h2, List.length_drop]
        omega
      · intro ch hch
        rcases List.mem_cons.mp hch with rfl | hch
        · simp [List.length_take]
        · exact h3 ch hch
      · intro i ch hget hi
        cases i with
        | zero =>
          simp only [List.get?_cons_zero, Option.some.injEq] at hget
          subst hget
          have hlen2 : 0 < (spliceChunks (hashes.drop 128)).length := by
            simp only [List.length_cons] at hi; omega
          rw [h2] at hlen2
          simp only [List.length_drop] at hlen2
          simp only [List.length_take]
          omega
        | succ i =>
          simp only [List.get?_cons_succ] at hget
          simp only [List.length_cons] at hi
          exact h4 i ch hget (by omega)

theorem mapBuffers_hex (env : Env) (ks : List String) (h : ∀ k ∈ ks, ∃ b, k = toHex b) :
    ∃ hs, mapBuffers env ks = some hs ∧ hs.map toHex = ks := by
  induction ks with
  | nil => exact ⟨[], rfl, rfl⟩
  | cons k ks ih =>
    obtain ⟨b, rfl⟩ := h k (List.mem_cons_self _ _)
    obtain ⟨hs, h1, h2⟩ := ih (fun k hk => h k (List.mem_cons_of_mem _ hk))
    exact ⟨b :: hs, by simp [mapBuffers, bufferFromHex_toHex, h1], by simp [h2]⟩

theorem mem_objectKeys (st : Store) (k : String) :
    k ∈ objectKeys st ↔ k ∈ st.map Prod.fst := by
  unfold objectKeys
  rw [List.mem_append, (List.perm_insertionSort _ _).mem_iff, List.mem_filter, List.mem_filter]
  cases isArrayIndex k <;> simp

theorem length_objectKeys (st : Store) : (objectKeys st).length = st.length := by
  unfold objectKeys
  rw [List.length_append, List.length_insertionSort]
  have h := List.length_eq_length_filter_add (l := st.map Prod.fst) isArrayIndex
  simp only [List.length_map] at h
  rw [h]

/-- C13, as amended.  Let an inbound socket for the upgrade path be open on a transport that accepts
the sends, and let the `n` keys of the store be hashes (hexadecimal forms of byte strings).
Then `incoming` returns normally, so its batching loop terminates, and what it sends is,
to the new peer only, the `HELLO` followed by one `[0, 'INV', 0, chunk]` per chunk, where
there are `ceil(n / 128)` chunks, each of at most 128 hashes, each but the last of exactly
128, and the chunks put end to end in send order are the known hashes, the keys of the
store as `Object.keys` lists them. -/
theorem incoming_inv_batches (env : Env) (now : Int) (ctx : Ctx) (socket : Socket)
    (hopen : socketSendable socket = true) (hsend : socket.sendThrows = false)
    (hhex : ∀ k ∈ ctx.annByHash.map Prod.fst, ∃ b, k = toHex b) :
    (incoming env now ctx socket "/cjdnsnode_websocket").threw = false ∧
    ∃ chunks : List (List Bytes),
      (incoming env now ctx socket "/cjdnsnode_websocket").ctx.sent
        = ctx.sent ++ (ctx.peerIdSeq, Val.arr [.num 0, .str "HELLO", .num ctx.version]) ::
            chunks.map (fun ch =>
              (ctx.peerIdSeq, Val.arr [.num 0, .str "INV", .num 0, .arr (ch.map .bin)])) ∧
      chunks.length = (ctx.annByHash.length + 127) / 128 ∧
      (∀ ch ∈ chunks, ch.length ≤ 128) ∧
      (∀ i ch, chunks.get? i = some ch → i + 1 < chunks.length → ch.length = 128) ∧
      chunks.flatten.map toHex = objectKeys ctx.annByHash := by
  obtain ⟨hashes, hmap, hkeys⟩ := mapBuffers_hex env (objectKeys ctx.annByHash)
    (fun k hk => hhex k ((mem_objectKeys _ k).mp hk))
  have hlen : hashes.length = ctx.annByHash.length := by
    rw [← length_objectKeys, ← hkeys, List.length_map]
  obtain ⟨h1, h2, h3, h4⟩ := spliceChunks_spec hashes.length hashes le_rfl
  have hhello : sendPeerMsg (mkPeer now ctx socket false).1 (mkPeer now ctx socket false).2
        (.arr [.num 0, .str "HELLO", .num ctx.version])
      = { (mkPeer now ctx socket false).1 with
          sent := ctx.sent ++ [(ctx.peerIdSeq, .arr [.num 0, .str "HELLO", .num ctx.version])] } := by
    rw [sendPeerMsg_delivered]
    · rfl
    · simpa [mkPeer] using hopen
    · simp [Val.encodable, encodableItems]
    · simpa [mkPeer] using hsend
  have hrun : incoming env now ctx socket "/cjdnsnode_websocket"
      = ⟨sendInvChunks ctx.peerIdSeq hashes
          { (mkPeer now ctx socket false).1 with
            sent := ctx.sent ++ [(ctx.peerIdSeq, .arr [.num 0, .str "HELLO", .num ctx.version])]
            peers := ctx.peers ++ [ctx.peerIdSeq] }, false⟩ := by
    unfold incoming
    rw [if_neg (by simp)]
    simp only [hhello]
    have hst : (mkPeer now ctx socket false).1.annByHash = ctx.annByHash := rfl
    simp only [hst, hmap]
    rfl
  rw [hrun, sendInvChunks_delivered ctx.peerIdSeq hashes.length hashes _ le_rfl
    (by simpa [mkPeer] using hopen) (by simpa [mkPeer] using hsend)]
  refine ⟨rfl, spliceChunks hashes, ?_, ?_, h3, h4, ?_⟩
  · simp
  · rw [h2, hlen]
  · rw [h1, hkeys]

/-- Witness for C13: a store of two hashes, `ab` and `12`, of which `Object.keys` lists
`12` first; the new peer, number 2, gets the `HELLO` and a single `INV`. -/
theorem incoming_inv_batches_witness :
    (incoming (constEnv .null) 5 (sampleCtx [] (fun _ => ⟨closedSocket, false, 0⟩)
        [("ab", [1]), ("12", [2])]) openSocket "/cjdnsnode_websocket").threw = false ∧
    ∃ chunks : List (List Bytes),
      (incoming (constEnv .null) 5 (sampleCtx [] (fun _ => ⟨closedSocket, false, 0⟩)
          [("ab", [1]), ("12", [2])]) openSocket "/cjdnsnode_websocket").ctx.sent
        = [] ++ (2, Val.arr [.num 0, .str "HELLO", .num 1]) ::
            chunks.map (fun ch => (2, Val.arr [.num 0, .str "INV", .num 0, .arr (ch.map .bin)])) ∧
      chunks.length = 1 ∧
      (∀ ch ∈ chunks, ch.length ≤ 128) ∧
      (∀ i ch, chunks.get? i = some ch → i + 1 < chunks.length → ch.length = 128) ∧
      chunks.flatten.map toHex = ["12", "ab"] :=
  incoming_inv_batches (constEnv .null) 5
    (sampleCtx [] (fun _ => ⟨closedSocket, false, 0⟩) [("ab", [1]), ("12", [2])])
    openSocket rfl rfl (by
      intro k hk
      simp only [sampleCtx, List.map_cons, List.map_nil, List.mem_cons, List.mem_singleton,
        List.not_mem_nil, or_false] at hk
      rcases hk with rfl | rfl
      · exact ⟨[171], rfl⟩
      · exact ⟨[18], rfl⟩)

/-- Counterexample to C13 as stated: the store holds one hash, and the accepted socket is
sendable (`readyState` 1) but its transport raises on `send`.  The `HELLO` fails, the
catch of `sendPeerMsg` closes the socket, the peer is pushed on the registry all the same,
and the one `INV` of the loop finds a socket that is not sendable: nothing is sent, where
the claim has `ceil(1 / 128) = 1` `INV` after the `HELLO`. -/
theorem incoming_throwing_send_no_inv :
    socketSendable (⟨1, true, false, false⟩ : Socket) = true ∧
    (sampleCtx [] (fun _ => ⟨closedSocket, false, 0⟩) [("ab", [1])]).annByHash.length = 1 ∧
    (incoming (constEnv .null) 5 (sampleCtx [] (fun _ => ⟨closedSocket, false, 0⟩)
        [("ab", [1])]) ⟨1, true, false, false⟩ "/cjdnsnode_websocket").threw = false ∧
    (incoming (constEnv .null) 5 (sampleCtx [] (fun _ => ⟨closedSocket, false, 0⟩)
        [("ab", [1])]) ⟨1, true, false, false⟩ "/cjdnsnode_websocket").ctx.sent = [] ∧
    (incoming (constEnv .null) 5 (sampleCtx [] (fun _ => ⟨closedSocket, false, 0⟩)
        [("ab", [1])]) ⟨1, true, false, false⟩ "/cjdnsnode_websocket").ctx.peers = [2] ∧
    ((incoming (constEnv .null) 5 (sampleCtx [] (fun _ => ⟨closedSocket, false, 0⟩)
        [("ab", [1])]) ⟨1, true, false, false⟩
        "/cjdnsnode_websocket").ctx.heap 2).socket.readyState = 2 := by
  have key : ∀ c : Ctx, sendInvChunks 2 [[171]] c
      = sendPeerMsg c 2 (.arr [.num 0, .str "INV", .num 0, .arr [.bin [171]]]) := by
    intro c
    rw [sendInvChunks_of_ne_nil _ _ _ (by simp)]
    exact sendInvChunks_nil _ _
  have hrun : ∃ c3 : Ctx,
      incoming (constEnv .null) 5 (sampleCtx [] (fun _ => ⟨closedSocket, false, 0⟩)
        [("ab", [1])]) ⟨1, true, false, false⟩ "/cjdnsnode_websocket"
        = ⟨sendInvChunks 2 [[171]] c3, false⟩ ∧
      c3.sent = [] ∧ c3.peers = [2] ∧ (c3.heap 2).socket = ⟨2, true, false, false⟩ :=
    ⟨_, rfl, rfl, rfl, rfl⟩
  obtain ⟨c3, hc, hs, hp, hh⟩ := hrun
  have hns : socketSendable (c3.heap 2).socket = false := by rw [hh]; rfl
  rw [hc, key, sendPeerMsg_not_sendable c3 2 _ hns]
  exact ⟨rfl, rfl, rfl, hs, hp, by rw [hh]⟩

/-! ## The two ways through `handleMessage` -/

/-- A message with a number then a string in front reaches the `switch`, after the time of
the last message is set. -/
theorem handleMessage_wellformed (env : Env) (now : Int) (ctx : Ctx) (p : Nat)
    (message : Bytes) (msg : Val) (s : Int) (t : String)
    (hdec : env.decode message = some msg) (h0 : msg.idx 0 = some (.num s))
    (h1 : msg.idx 1 = some (.str t)) :
    handleMessage env now ctx p message
      = dispatch env (ctx.setPeer p { ctx.heap p with timeOfLastMessage := now }) p s t
          (msg.field 2) (msg.field 3) := by
  simp [handleMessage, hdec, h0, h1]

/-- Either `handleMessage` throws before it has changed anything, or it reaches the
`switch`. -/
theorem handleMessage_shape (env : Env) (now : Int) (ctx : Ctx) (p : Nat) (message : Bytes) :
    handleMessage env now ctx p message = ⟨ctx, true⟩ ∨
    ∃ msg s t, env.decode message = some msg ∧ msg.idx 0 = some (.num s) ∧
      msg.idx 1 = some (.str t) ∧
      handleMessage env now ctx p message
        = dispatch env (ctx.setPeer p { ctx.heap p with timeOfLastMessage := now }) p s t
            (msg.field 2) (msg.field 3) := by
  unfold handleMessage
  split
  · exact Or.inl rfl
  · rename_i msg hdec
    split
    · rename_i s t h0 h1
      exact Or.inr ⟨msg, s, t, hdec, h0, h1, rfl⟩
    · exact Or.inl rfl

/-- The message listener, seen from the context it started in: it works for `p` only,
except that it may have set the time of the last message of `p`. -/
theorem onMessage_local (env : Env) (now : Int) (ctx : Ctx) (p : Nat) (message : Bytes) :
    Local p ctx (onMessage env now ctx p message) ∨
    Local p (ctx.setPeer p { ctx.heap p with timeOfLastMessage := now })
      (onMessage env now ctx p message) := by
  unfold onMessage
  rcases handleMessage_shape env now ctx p message with h | ⟨msg, s, t, _, _, _, h⟩
  · left
    rw [h]
    exact local_dropPeer ctx p
  · right
    rw [h]
    have hd := local_dispatch env (ctx.setPeer p { ctx.heap p with timeOfLastMessage := now })
      p s t (msg.field 2) (msg.field 3)
    dsimp only
    split
    · exact hd.trans (local_dropPeer _ p)
    · exact hd

/-! ## C14: isolation of the other peers -/

/-- C14.  Whatever frame the message listener handles for peer `p`, well-formed of any
type or malformed, every other peer `q` that was in the registry is still in it, its peer
object (direction, socket, time of the last message) is unchanged, and every frame sent
goes to `p`, none to `q`.  The listener has no exceptional outcome: `handleMessage` runs
inside `try` and the `catch` only calls `dropPeer`. -/
theorem onMessage_isolation (env : Env) (now : Int) (ctx : Ctx) (p : Nat) (message : Bytes)
    (q : Nat) (hq : q ≠ p) :
    (q ∈ ctx.peers → q ∈ (onMessage env now ctx p message).peers) ∧
    (onMessage env now ctx p message).heap q = ctx.heap q ∧
    ∃ frames, (onMessage env now ctx p message).sent = ctx.sent ++ frames ∧
      ∀ m ∈ frames, m.1 = p ∧ m.1 ≠ q := by
  rcases onMessage_local env now ctx p message with h | h
  · obtain ⟨frames, hf, hm⟩ := h.sent_to_self
    refine ⟨fun hmem => (h.mem_other q hq).mpr hmem, h.heap_other q hq, frames, hf, ?_⟩
    intro m hmf
    exact ⟨hm m hmf, by rw [hm m hmf]; exact Ne.symm hq⟩
  · obtain ⟨frames, hf, hm⟩ := h.sent_to_self
    refine ⟨fun hmem => (h.mem_other q hq).mpr (by simpa using hmem), ?_, frames,
      by simpa using hf, ?_⟩
    · rw [h.heap_other q hq]
      exact setPeer_heap_other ctx p q _ hq
    · intro m hmf
      exact ⟨hm m hmf, by rw [hm m hmf]; exact Ne.symm hq⟩

/-- Witness for C14: peer 0 sends a malformed frame and is dropped; peer 1 stays. -/
theorem onMessage_isolation_witness :
    1 ∈ (onMessage (constEnv (.arr [.str "PING", .num 1])) 5
        (sampleCtx [0, 1] (fun _ => ⟨openSocket, false, 0⟩) []) 0 []).peers ∧
    0 ∉ (onMessage (constEnv (.arr [.str "PING", .num 1])) 5
        (sampleCtx [0, 1] (fun _ => ⟨openSocket, false, 0⟩) []) 0 []).peers :=
  ⟨(onMessage_isolation (constEnv (.arr [.str "PING", .num 1])) 5
      (sampleCtx [0, 1] (fun _ => ⟨openSocket, false, 0⟩) []) 0 [] 1 (by decide)).1 (by decide),
    by decide⟩

/-! ## C15: `GET_DATA` -/

theorem annGet_toHex (st : Store) (b : Bytes) :
    annGet st (toHex b)
      = match st.lookup (toHex b) with
        | some v => .bin v
        | none => .undefined := by
  obtain ⟨h1, h2⟩ := toHex_not_inherited b
  unfold annGet
  cases st.lookup (toHex b) <;> simp [h1, h2]

/-- C15, as amended.  A message `[s, 'GET_DATA', hashBytes]` handled for a peer of either direction
whose socket is sendable and whose transport accepts the send is answered by exactly one
frame, `[s, 'DATA', x]` to that peer, where `x` is the payload stored under the
hexadecimal form of `hashBytes` if that is a key of the store and `null` otherwise; the
handler returns normally and the store is unchanged. -/
theorem handleMessage_get_data (env : Env) (now : Int) (ctx : Ctx) (p : Nat) (message : Bytes)
    (s : Int) (hashBytes : Bytes)
    (hdec : env.decode message = some (.arr [.num s, .str "GET_DATA", .bin hashBytes]))
    (hopen : socketSendable (ctx.heap p).socket = true)
    (hsend : (ctx.heap p).socket.sendThrows = false) :
    (handleMessage env now ctx p message).threw = false ∧
    (handleMessage env now ctx p message).ctx.sent
      = ctx.sent ++ [(p, .arr [.num s, .str "DATA",
          match ctx.annByHash.lookup (toHex hashBytes) with
          | some payload => .bin payload
          | none => .null])] ∧
    (handleMessage env now ctx p message).ctx.annByHash = ctx.annByHash := by
  have hann : (if (annGet ctx.annByHash (toHex hashBytes)).truthy
        then annGet ctx.annByHash (toHex hashBytes) else Val.null)
      = match ctx.annByHash.lookup (toHex hashBytes) with
        | some payload => .bin payload
        | none => .null := by
    rw [annGet_toHex]
    cases ctx.annByHash.lookup (toHex hashBytes) <;> simp [Val.truthy]
  have hrun : handleMessage env now ctx p message
      = ⟨sendPeerMsg (ctx.setPeer p { ctx.heap p with timeOfLastMessage := now }) p
          (.arr [.num s, .str "DATA",
            match ctx.annByHash.lookup (toHex hashBytes) with
            | some payload => .bin payload
            | none => .null]), false⟩ := by
    rw [handleMessage_wellformed env now ctx p message _ s "GET_DATA" hdec rfl rfl]
    simp only [dispatch, Val.field, Val.idx, List.getD_cons_succ, List.getD_cons_zero,
      Option.getD_some, hexOf, setPeer_annByHash, hann]
    simp
  rw [hrun, sendPeerMsg_delivered]
  · exact ⟨rfl, rfl, rfl⟩
  · simpa using hopen
  · cases ctx.annByHash.lookup (toHex hashBytes) <;> simp [Val.encodable, encodableItems]
  · simpa using hsend

/-- Witness for C15: the store holds `ab`; one request for `ab`, answered with the payload. -/
theorem handleMessage_get_data_witness :
    (handleMessage (constEnv (.arr [.num 9, .str "GET_DATA", .bin [171]])) 5
        (sampleCtx [0] (fun _ => ⟨openSocket, true, 0⟩) [("ab", [1, 2])]) 0 []).ctx.sent
      = [(0, .arr [.num 9, .str "DATA", .bin [1, 2]])] :=
  (handleMessage_get_data (constEnv (.arr [.num 9, .str "GET_DATA", .bin [171]])) 5
    (sampleCtx [0] (fun _ => ⟨openSocket, true, 0⟩) [("ab", [1, 2])]) 0 [] 9 [171]
    rfl rfl rfl).2.1

/-- Counterexample to C15 as stated: the peer's socket is sendable (`readyState` 1) but its
transport raises on `send`.  The store holds `ab`; the `GET_DATA` for `ab` gets no reply,
and the failed send drops the peer. -/
theorem handleMessage_get_data_throwing_send_no_reply :
    socketSendable ((sampleCtx [0] (fun _ => ⟨⟨1, true, false, false⟩, true, 0⟩)
      [("ab", [1, 2])]).heap 0).socket = true ∧
    (handleMessage (constEnv (.arr [.num 9, .str "GET_DATA", .bin [171]])) 5
        (sampleCtx [0] (fun _ => ⟨⟨1, true, false, false⟩, true, 0⟩) [("ab", [1, 2])])
        0 []).ctx.sent = [] ∧
    (handleMessage (constEnv (.arr [.num 9, .str "GET_DATA", .bin [171]])) 5
        (sampleCtx [0] (fun _ => ⟨⟨1, true, false, false⟩, true, 0⟩) [("ab", [1, 2])])
        0 []).ctx.peers = [] := by
  refine ⟨?_, ?_, ?_⟩ <;> rfl

/-! ## C16: the time of the last message -/

theorem handleMessage_malformed (env : Env) (now : Int) (ctx : Ctx) (p : Nat)
    (message : Bytes)
    (hbad : env.decode message = none ∨
      ∃ msg, env.decode message = some msg ∧
        ∀ a b, msg.idx 0 = some a → msg.idx 1 = some b → (a.isNumber && b.isString) = false) :
    handleMessage env now ctx p message = ⟨ctx, true⟩ := by
  rcases handleMessage_shape env now ctx p message with h | ⟨msg, s, t, hdec, h0, h1, _⟩
  · exact h
  · rcases hbad with hnone | ⟨msg2, hdec2, hbad⟩
    · rw [hnone] at hdec; cases hdec
    · rw [hdec2] at hdec
      cases hdec
      simpa [Val.isNumber, Val.isString] using hbad _ _ h0 h1

/-- C16.  For a message whose first two decoded fields are a number and a string, whatever
its type and whatever the handler then does (ignore, answer, drop, throw), `handleMessage`
enters its `switch` with the time of the last message of the peer set to the current time,
and that is still its value when the handler is left.  For a malformed message the handler
throws with the context, and so the time, unchanged, and the listener that catches the
exception leaves the time unchanged too. -/
theorem handleMessage_sets_time (env : Env) (now : Int) (ctx : Ctx) (p : Nat)
    (message : Bytes) :
    (∀ msg s t, env.decode message = some msg → msg.idx 0 = some (.num s) →
      msg.idx 1 = some (.str t) →
      handleMessage env now ctx p message
        = dispatch env (ctx.setPeer p { ctx.heap p with timeOfLastMessage := now }) p s t
            (msg.field 2) (msg.field 3) ∧
      ((ctx.setPeer p { ctx.heap p with timeOfLastMessage := now }).heap p).timeOfLastMessage
        = now ∧
      ((handleMessage env now ctx p message).ctx.heap p).timeOfLastMessage = now ∧
      ((onMessage env now ctx p message).heap p).timeOfLastMessage = now) ∧
    ((env.decode message = none ∨
      ∃ msg, env.decode message = some msg ∧
        ∀ a b, msg.idx 0 = some a → msg.idx 1 = some b → (a.isNumber && b.isString) = false) →
      handleMessage env now ctx p message = ⟨ctx, true⟩ ∧
      ((onMessage env now ctx p message).heap p).timeOfLastMessage
        = (ctx.heap p).timeOfLastMessage) := by
  constructor
  · intro msg s t hdec h0 h1
    have hrun := handleMessage_wellformed env now ctx p message msg s t hdec h0 h1
    have hd := local_dispatch env (ctx.setPeer p { ctx.heap p with timeOfLastMessage := now })
      p s t (msg.field 2) (msg.field 3)
    have htime : ((handleMessage env now ctx p message).ctx.heap p).timeOfLastMessage = now := by
      rw [hrun, hd.time_self]
      simp
    refine ⟨hrun, by simp, htime, ?_⟩
    unfold onMessage
    dsimp only
    split
    · rw [(local_dropPeer _ p).time_self]
      exact htime
    · exact htime
  · intro hbad
    have hrun := handleMessage_malformed env now ctx p message hbad
    refine ⟨hrun, ?_⟩
    simp only [onMessage, hrun, if_true]
    exact (local_dropPeer ctx p).time_self

/-- Witness for C16: a `HELLO` on an incoming peer, which drops the peer, still sets the
time. -/
theorem handleMessage_sets_time_witness :
    ((handleMessage (constEnv (.arr [.num 0, .str "HELLO", .num 1])) 5
        (sampleCtx [0] (fun _ => ⟨openSocket, false, 0⟩) []) 0 []).ctx.heap 0).timeOfLastMessage
      = 5 :=
  ((handleMessage_sets_time (constEnv (.arr [.num 0, .str "HELLO", .num 1])) 5
    (sampleCtx [0] (fun _ => ⟨openSocket, false, 0⟩) []) 0 []).1
    (.arr [.num 0, .str "HELLO", .num 1]) 0 "HELLO" rfl rfl rfl).2.2.1

/-! ## C17: `INV` from an incoming peer -/

/-- C17.  An `INV` message received on an incoming peer, whatever it advertises and whatever
the store holds, is ignored: the handler returns normally having set the time of the last
message and nothing else, so that no frame is sent, the sequence counter does not move, and
the store and the registry are unchanged. -/
theorem handleMessage_inv_incoming_ignored (env : Env) (now : Int) (ctx : Ctx) (p : Nat)
    (message : Bytes) (msg : Val) (s : Int)
    (hdec : env.decode message = some msg) (h0 : msg.idx 0 = some (.num s))
    (h1 : msg.idx 1 = some (.str "INV")) (hin : (ctx.heap p).outgoing = false) :
    handleMessage env now ctx p message
      = ⟨ctx.setPeer p { ctx.heap p with timeOfLastMessage := now }, false⟩ ∧
    (handleMessage env now ctx p message).ctx.sent = ctx.sent ∧
    (handleMessage env now ctx p message).ctx.seq = ctx.seq ∧
    (handleMessage env now ctx p message).ctx.annByHash = ctx.annByHash ∧
    (handleMessage env now ctx p message).ctx.peers = ctx.peers := by
  have hrun : handleMessage env now ctx p message
      = ⟨ctx.setPeer p { ctx.heap p with timeOfLastMessage := now }, false⟩ := by
    rw [handleMessage_wellformed env now ctx p message msg s "INV" hdec h0 h1]
    simp [dispatch, hin]
  rw [hrun]
  exact ⟨rfl, rfl, rfl, rfl, rfl⟩

/-- Witness for C17: an incoming peer advertises a hash that the store does not hold. -/
theorem handleMessage_inv_incoming_ignored_witness :
    (handleMessage (constEnv (.arr [.num 0, .str "INV", .num 0, .arr [.bin [205]]])) 5
        (sampleCtx [0] (fun _ => ⟨openSocket, false, 0⟩) []) 0 []).ctx.sent = [] ∧
    (handleMessage (constEnv (.arr [.num 0, .str "INV", .num 0, .arr [.bin [205]]])) 5
        (sampleCtx [0] (fun _ => ⟨openSocket, false, 0⟩) []) 0 []).ctx.seq = 1000 :=
  have h := handleMessage_inv_incoming_ignored
    (constEnv (.arr [.num 0, .str "INV", .num 0, .arr [.bin [205]]])) 5
    (sampleCtx [0] (fun _ => ⟨openSocket, false, 0⟩) []) 0 []
    (.arr [.num 0, .str "INV", .num 0, .arr [.bin [205]]]) 0 rfl rfl rfl rfl
  ⟨h.2.1, h.2.2.1⟩

/-! ## C18: `deleteAnn` -/

theorem annDelete_of_not_mem (st : Store) (k : String) (h : k ∉ st.map Prod.fst) :
    annDelete st k = st := by
  unfold annDelete
  rw [List.filter_eq_self]
  intro e he
  have : e.1 ≠ k := by
    rintro rfl
    exact h (List.mem_map_of_mem Prod.fst he)
  simpa using this

theorem lookup_annDelete_self (st : Store) (k : String) : (annDelete st k).lookup k = none := by
  induction st with
  | nil => rfl
  | cons e es ih =>
    obtain ⟨a, v⟩ := e
    by_cases hk : a = k
    · subst hk
      simpa [annDelete, List.filter_cons] using ih
    · have h2 : (k == a) = false := by simpa using (Ne.symm hk)
      have h3 : (a == k) = false := by simpa using hk
      simp only [annDelete, List.filter_cons, h3, Bool.not_false, if_true, List.lookup_cons, h2]
      exact ih

theorem lookup_annDelete_other (st : Store) (k j : String) (hj : j ≠ k) :
    (annDelete st k).lookup j = st.lookup j := by
  induction st with
  | nil => rfl
  | cons e es ih =>
    obtain ⟨a, v⟩ := e
    by_cases hk : a = k
    · subst hk
      have h2 : (j == a) = false := by simpa using hj
      simp only [annDelete, List.filter_cons, beq_self_eq_true, Bool.not_true,
        Bool.false_eq_true, if_false, List.lookup_cons, h2]
      exact ih
    · have h3 : (a == k) = false := by simpa using hk
      simp only [annDelete, List.filter_cons, h3, Bool.not_false, if_true, List.lookup_cons]
      cases j == a
      · exact ih
      · rfl

/-- C18.  `deleteAnn(h)` on a hash that is not a key of the store leaves the whole context
unchanged.  For any `h`, afterwards `h` is not a key, the keys are the former keys without
`h`, in the same order, every other key has the payload it had, and nothing is sent: the
log of frames, the registry and the peer objects are as before.  (The operation has no
exceptional outcome.) -/
theorem deleteAnn_spec (ctx : Ctx) (h : String) :
    (h ∉ ctx.annByHash.map Prod.fst → deleteAnn ctx h = ctx) ∧
    (deleteAnn ctx h).annByHash.lookup h = none ∧
    (deleteAnn ctx h).annByHash.map Prod.fst
      = (ctx.annByHash.map Prod.fst).filter (fun k => !(k == h)) ∧
    (∀ k, k ≠ h → (deleteAnn ctx h).annByHash.lookup k = ctx.annByHash.lookup k) ∧
    (deleteAnn ctx h).sent = ctx.sent ∧
    (deleteAnn ctx h).peers = ctx.peers ∧
    (deleteAnn ctx h).heap = ctx.heap := by
  refine ⟨?_, lookup_annDelete_self _ h, ?_, fun k hk => lookup_annDelete_other _ h k hk,
    rfl, rfl, rfl⟩
  · intro hn
    apply Ctx.eq_of_fields
    · rfl
    · rfl
    · exact annDelete_of_not_mem _ h hn
    all_goals rfl
  · simp only [deleteAnn, annDelete, List.filter_map]
    rfl

/-- Witness for C18: `cd` is not a key of the store, `ab` is. -/
theorem deleteAnn_spec_witness :
    deleteAnn (sampleCtx [0] (fun _ => ⟨openSocket, false, 0⟩) [("ab", [1]), ("ef", [2])]) "cd"
      = sampleCtx [0] (fun _ => ⟨openSocket, false, 0⟩) [("ab", [1]), ("ef", [2])] ∧
    (deleteAnn (sampleCtx [0] (fun _ => ⟨openSocket, false, 0⟩) [("ab", [1]), ("ef", [2])])
      "ab").annByHash.lookup "ef" = some [2] :=
  ⟨(deleteAnn_spec (sampleCtx [0] (fun _ => ⟨openSocket, false, 0⟩) [("ab", [1]), ("ef", [2])])
      "cd").1 (by decide),
    (deleteAnn_spec (sampleCtx [0] (fun _ => ⟨openSocket, false, 0⟩) [("ab", [1]), ("ef", [2])])
      "ab").2.2.2.1 "ef" (by decide)⟩

/-! ## C20: message types without a case -/

/-- C20.  A well-formed message whose type is `ACK`, or none of `HELLO`, `OLLEH`,
`GET_DATA`, `PING`, `ACK`, `INV`, `DATA`, is accepted without effect: the handler returns
normally and the context it leaves is the one it was given with the time of the last
message of the peer set, so that nothing is sent, the peer is not dropped, the callback is
not invoked, and no counter, store entry or other peer object changes. -/
theorem handleMessage_other_type (env : Env) (now : Int) (ctx : Ctx) (p : Nat)
    (message : Bytes) (msg : Val) (s : Int) (t : String)
    (hdec : env.decode message = some msg) (h0 : msg.idx 0 = some (.num s))
    (h1 : msg.idx 1 = some (.str t))
    (ht : t = "ACK" ∨ (t ≠ "HELLO" ∧ t ≠ "OLLEH" ∧ t ≠ "GET_DATA" ∧ t ≠ "PING" ∧ t ≠ "ACK" ∧
      t ≠ "INV" ∧ t ≠ "DATA")) :
    handleMessage env now ctx p message
      = ⟨ctx.setPeer p { ctx.heap p with timeOfLastMessage := now }, false⟩ ∧
    (handleMessage env now ctx p message).ctx.sent = ctx.sent ∧
    (handleMessage env now ctx p message).ctx.peers = ctx.peers ∧
    (handleMessage env now ctx p message).ctx.announced = ctx.announced ∧
    (handleMessage env now ctx p message).ctx.annByHash = ctx.annByHash ∧
    (handleMessage env now ctx p message).ctx.seq = ctx.seq ∧
    (handleMessage env now ctx p message).ctx.peerIdSeq = ctx.peerIdSeq ∧
    ((handleMessage env now ctx p message).ctx.heap p).socket = (ctx.heap p).socket ∧
    (∀ q, q ≠ p → (handleMessage env now ctx p message).ctx.heap q = ctx.heap q) := by
  have hrun : handleMessage env now ctx p message
      = ⟨ctx.setPeer p { ctx.heap p with timeOfLastMessage := now }, false⟩ := by
    rw [handleMessage_wellformed env now ctx p message msg s t hdec h0 h1]
    rcases ht with rfl | ⟨a1, a2, a3, a4, a5, a6, a7⟩
    · simp [dispatch]
    · simp [dispatch, a1, a2, a3, a4, a5, a6, a7]
  rw [hrun]
  refine ⟨rfl, rfl, rfl, rfl, rfl, rfl, rfl, by simp, fun q hq => setPeer_heap_other ctx p q _ hq⟩

/-- Witness for C20: a message of the unknown type `NOPE`. -/
theorem handleMessage_other_type_witness :
    (handleMessage (constEnv (.arr [.num 4, .str "NOPE", .bin [1]])) 5
        (sampleCtx [0] (fun _ => ⟨openSocket, true, 0⟩) []) 0 []).ctx.sent = [] ∧
    (handleMessage (constEnv (.arr [.num 4, .str "NOPE", .bin [1]])) 5
        (sampleCtx [0] (fun _ => ⟨openSocket, true, 0⟩) []) 0 []).ctx.peers = [0] :=
  have h := handleMessage_other_type (constEnv (.arr [.num 4, .str "NOPE", .bin [1]])) 5
    (sampleCtx [0] (fun _ => ⟨openSocket, true, 0⟩) []) 0 []
    (.arr [.num 4, .str "NOPE", .bin [1]]) 4 "NOPE" rfl rfl rfl
    (Or.inr (by decide))
  ⟨h.2.1, h.2.2.1⟩

/-! ## C19: no peer is registered twice -/

theorem local_pingStep (now : Nat → Int) (k : Nat) (c : Ctx) (p : Nat) :
    Local p c (pingStep now k c p) := by
  unfold pingStep
  dsimp only
  split
  · exact local_dropPeer c p
  · split
    · exact (local_seq c p _).trans (local_sendPeerMsg _ p _)
    · exact Local.refl p c

theorem local_sendInvChunks (p : Nat) :
    ∀ (n : Nat) (hashes : List Bytes) (c : Ctx), hashes.length ≤ n →
      Local p c (sendInvChunks p hashes c) := by
  intro n
  induction n with
  | zero =>
    intro hashes c hlen
    have : hashes = [] := List.length_eq_zero.mp (Nat.le_zero.mp hlen)
    subst this
    rw [sendInvChunks_nil]
    exact Local.refl p c
  | succ n ih =>
    intro hashes c hlen
    by_cases hne : hashes = []
    · subst hne
      rw [sendInvChunks_nil]
      exact Local.refl p c
    · rw [sendInvChunks_of_ne_nil p hashes c hne]
      have hpos : 0 < hashes.length := List.length_pos.mpr hne
      exact (local_sendPeerMsg c p _).trans
        (ih _ _ (by simp only [List.length_drop]; omega))

/-- A `forEach` whose callback works for the visited peer only can but shorten the
registry. -/
theorem peersForEach_shrinks (f : Nat → Ctx → Nat → Ctx)
    (hf : ∀ k c p, Local p c (f k c p)) (n k : Nat) (c : Ctx) :
    (peersForEach f n k c).peers.Sublist c.peers ∧
    (peersForEach f n k c).peerIdSeq = c.peerIdSeq :=
  peersForEach_preserves (fun d => d.peers.Sublist c.peers ∧ d.peerIdSeq = c.peerIdSeq) f
    (fun k d p hd => ⟨(hf k d p).sublist.trans hd.1, (hf k d p).peerIdSeq_eq.trans hd.2⟩)
    n k c ⟨List.Sublist.refl _, rfl⟩

/-- The registry lists no peer twice and only peers that `mkPeer` has made. -/
theorem registry_inv_of_shrinks {c d : Ctx}
    (hc : c.peers.Nodup ∧ ∀ q ∈ c.peers, q < c.peerIdSeq)
    (hs : d.peers.Sublist c.peers) (hid : d.peerIdSeq = c.peerIdSeq) :
    d.peers.Nodup ∧ ∀ q ∈ d.peers, q < d.peerIdSeq :=
  ⟨hc.1.sublist hs, fun q hq => hid ▸ hc.2 q (hs.subset hq)⟩

theorem registry_inv_push {c d : Ctx}
    (hc : c.peers.Nodup ∧ ∀ q ∈ c.peers, q < c.peerIdSeq)
    (hs : d.peers.Sublist c.peers) (hid : d.peerIdSeq = c.peerIdSeq + 1) :
    (d.peers ++ [c.peerIdSeq]).Nodup ∧ ∀ q ∈ d.peers ++ [c.peerIdSeq], q < d.peerIdSeq := by
  constructor
  · rw [List.nodup_append]
    refine ⟨hc.1.sublist hs, List.nodup_singleton _, ?_⟩
    intro q hq hq2
    rw [List.mem_singleton] at hq2
    subst hq2
    exact Nat.lt_irrefl _ (hc.2 _ (hs.subset hq))
  · intro q hq
    rw [hid]
    rcases List.mem_append.mp hq with h | h
    · exact Nat.lt_succ_of_lt (hc.2 q (hs.subset h))
    · rw [List.mem_singleton] at h
      subst h
      exact Nat.lt_succ_self _

theorem reachable_registry_inv (env : Env) (c : Ctx) (h : Reachable env c) :
    c.peers.Nodup ∧ ∀ q ∈ c.peers, q < c.peerIdSeq := by
  induction h with
  | create now => exact ⟨List.nodup_nil, by simp [create]⟩
  | @incoming c _ now socket url ih =>
    unfold incoming
    split
    · exact ih
    · have hl := local_sendPeerMsg (mkPeer now c socket false).1 (mkPeer now c socket false).2
        (.arr [.num 0, .str "HELLO", .num c.version])
      have hpush := registry_inv_push (c := c)
        (d := sendPeerMsg (mkPeer now c socket false).1 (mkPeer now c socket false).2
          (.arr [.num 0, .str "HELLO", .num c.version])) ih hl.sublist hl.peerIdSeq_eq
      dsimp only
      split
      · exact hpush
      · rename_i hashes _
        have hl2 := local_sendInvChunks (mkPeer now c socket false).2 hashes.length hashes
          { sendPeerMsg (mkPeer now c socket false).1 (mkPeer now c socket false).2
              (.arr [.num 0, .str "HELLO", .num c.version]) with
            peers := (sendPeerMsg (mkPeer now c socket false).1 (mkPeer now c socket false).2
              (.arr [.num 0, .str "HELLO", .num c.version])).peers ++ [c.peerIdSeq] } le_rfl
        exact registry_inv_of_shrinks hpush hl2.sublist hl2.peerIdSeq_eq
  | @connectToOpen c _ now socket ih =>
    unfold connectToOpen
    have hpush := registry_inv_push (c := c) (d := (mkPeer now c socket true).1) ih
      (List.Sublist.refl _) rfl
    have hl := local_sendPeerMsg
      { (mkPeer now c socket true).1 with
        peers := (mkPeer now c socket true).1.peers ++ [(mkPeer now c socket true).2] }
      (mkPeer now c socket true).2 (.arr [.num 0, .str "OLLEH", .num c.version])
    exact registry_inv_of_shrinks hpush hl.sublist hl.peerIdSeq_eq
  | @handleMessage c _ now p message ih =>
    rcases handleMessage_shape env now c p message with h | ⟨msg, s, t, _, _, _, h⟩
    · rw [h]; exact ih
    · rw [h]
      have hl := local_dispatch env (c.setPeer p { c.heap p with timeOfLastMessage := now })
        p s t (msg.field 2) (msg.field 3)
      exact registry_inv_of_shrinks (c := c) ih hl.sublist hl.peerIdSeq_eq
  | @dropPeer c _ p ih =>
    exact registry_inv_of_shrinks ih (local_dropPeer c p).sublist (local_dropPeer c p).peerIdSeq_eq
  | @addAnn c _ hash binary ih =>
    unfold addAnn
    dsimp only
    split
    · rename_i b _
      have hs := peersForEach_shrinks
        (fun _ d p =>
          if (d.heap p).outgoing then d
          else sendPeerMsg d p (.arr [.num 0, .str "INV", .num 0, .arr [.bin b]]))
        (by
          intro k d p
          dsimp only
          split
          · exact Local.refl p d
          · exact local_sendPeerMsg d p _)
        c.peers.length 0 { c with annByHash := annPut c.annByHash hash binary }
      exact registry_inv_of_shrinks (c := c) ih hs.1 hs.2
    · exact ih
  | @deleteAnn c _ hash ih => exact ih
  | @pingCycle c _ now ih =>
    have hs := peersForEach_shrinks (pingStep now) (local_pingStep now) c.peers.length 0 c
    exact registry_inv_of_shrinks ih hs.1 hs.2
  | @transport c _ p socket ih => exact ih

/-- C19.  In every context reachable from `create` through the events of the module
(`incoming` and the open continuation of `connectTo`, which run `mkPeer` and push on the
registry, `handleMessage`, `dropPeer`, `addAnn`, `deleteAnn`, `pingCycle`, and changes of
socket state by the transport) the registry lists no peer twice; therefore after
`dropPeer(ctx, p)` the peer `p` does not occur in `ctx.peers`, and the registry has lost
at most one entry. -/
theorem reachable_registry_unique (env : Env) (c : Ctx) (h : Reachable env c) :
    c.peers.Nodup ∧
    ∀ p, p ∉ (dropPeer c p).peers ∧
      (dropPeer c p).peers.length ≤ c.peers.length ∧
      c.peers.length ≤ (dropPeer c p).peers.length + 1 := by
  have hnd := (reachable_registry_inv env c h).1
  refine ⟨hnd, fun p => ⟨by simp [hnd.mem_erase_iff], ?_, ?_⟩⟩
  · simp only [dropPeer_peers, List.length_erase]
    split <;> omega
  · simp only [dropPeer_peers, List.length_erase]
    split <;> omega

/-- Witness for C19: the context after `create`, one inbound connection and one outbound
connection. -/
theorem reachable_registry_unique_witness :
    (connectToOpen 2 (incoming (constEnv .null) 1 (create 0) openSocket
      "/cjdnsnode_websocket").ctx openSocket).peers.Nodup :=
  (reachable_registry_unique (constEnv .null) _
    (Reachable.connectToOpen
      (Reachable.incoming (Reachable.create 0) 1 openSocket "/cjdnsnode_websocket")
      2 openSocket)).1

end CjdnsNode
